import Mathlib

/-!
# fheroes2: `ai/normal/ai_normal_kingdom.cpp`

A shallow embedding of the two functions of the file,
`AI::IsValidKingdomObject` and `AI::Normal::KingdomTurn`, followed by the
properties of the kingdom-turn specification that are settled on them.

Conventions of the embedding.

* C++ `int` colours and object identifiers are `Int`; sizes, indices, day
  counts and the army strength scalar are `Nat` (the world is at most a
  few hundred tiles wide, no arithmetic of the file can overflow).
* Heroes and castles are held by pointer in the source; here a pointer is
  an identifier (`HeroId`, `CastleId`) and a null pointer is `none`.
* Everything the file calls but does not define (tiles, `MP2`, `Players`,
  `Settings`, `Maps`, the kingdom, the world, the per-hero and per-castle
  turns) is a field of a record the definitions take as an argument, so
  every theorem holds for every behaviour of those collaborators.
* `std::sort` is embedded as libstdc++ writes it: the introsort loop with
  its threshold of 16 elements, then the final insertion sort. The vector
  is a list, and a read or a write outside it has no result (`none`).
-/

namespace AI

/-! ## Declarations the file uses from the rest of the repository -/

/-- The constants and predicates of `MP2`, `Players`, `Settings`, `Maps`
and `Color` that the file reads. They are declared in other files of the
repository, so they are taken as parameters. -/
structure Game where
  /-- The constant `MP2::OBJ_CASTLE`. -/
  OBJ_CASTLE : Int
  /-- The constant `MP2::OBJ_HEROES`. -/
  OBJ_HEROES : Int
  /-- The predicate `MP2::isGroundObject`. -/
  isGroundObject : Int → Bool
  /-- The predicate `MP2::isCaptureObject`. -/
  isCaptureObject : Int → Bool
  /-- The predicate `MP2::isQuantityObject`. -/
  isQuantityObject : Int → Bool
  /-- The relation `Players::isFriends`. -/
  isFriends : Int → Int → Bool
  /-- The setting `Settings::Get().ExtUnionsAllowCastleVisiting()`. -/
  ExtUnionsAllowCastleVisiting : Bool
  /-- The map size `Maps::LARGE`. -/
  LARGE : Nat
  /-- The map size `Maps::XLARGE`. -/
  XLARGE : Nat
  /-- The sentinel `Color::NONE`. -/
  NONE : Int

/-- The hero standing on a tile, as far as the file looks at it:
`Heroes::GetColor`. -/
structure Heroes where
  /-- The call `GetColor()`. -/
  GetColor : Int
  deriving DecidableEq

/-- The observations the file makes of a `Maps::Tiles`. -/
structure Tiles where
  /-- The call `isFog( color )`. -/
  isFog : Int → Bool
  /-- The call `GetObject( false )`: the object of the tile, the one under a hero
  when a hero stands on it -/
  GetObjectFalse : Int
  /-- The call `GetObject()`: the primary object of the tile, the hero object when
  a hero stands on it -/
  GetObject : Int
  /-- The call `QuantityColor()`. -/
  QuantityColor : Int
  /-- The call `QuantityIsValid()`. -/
  QuantityIsValid : Bool
  /-- The call `GetHeroes()`, `none` for a null pointer. -/
  GetHeroes : Option Heroes

/-- Modelled from the spec: the personality tag of the AI, whose enum is
declared outside the file. The spec names the exploration archetype and
leaves the others open ("EXPLORER or other archetypes"). -/
inductive Personality where
  | EXPLORER
  | OTHER (tag : Nat)
  deriving DecidableEq, Repr

/-! ## `AI::IsValidKingdomObject` (lines 30-58) -/

/-- Embedding of `bool IsValidKingdomObject( const Maps::Tiles & tile, int objectID, int kingdomColor )`. -/
def IsValidKingdomObject (g : Game) (tile : Tiles) (objectID : Int) (kingdomColor : Int) : Bool :=
  if tile.isFog kingdomColor || !g.isGroundObject objectID then
    false
  else if tile.GetObjectFalse = g.OBJ_CASTLE then
    let tileColor := tile.QuantityColor
    if !g.ExtUnionsAllowCastleVisiting && g.isFriends kingdomColor tileColor then
      decide (kingdomColor = tileColor)
    else
      true
  else if objectID = g.OBJ_HEROES then
    match tile.GetHeroes with
    | none => false
    | some hero => !g.isFriends kingdomColor hero.GetColor
  else if g.isCaptureObject objectID then
    !g.isFriends kingdomColor tile.QuantityColor
  else if g.isQuantityObject objectID then
    tile.QuantityIsValid
  else
    true

/-! ## The hero limit of `KingdomTurn` (lines 100, 109-113) -/

/-- Line 100: `world.CountDay() < 5 && castles.size() == 1`. -/
def slowEarlyGame (countDay castlesSize : Nat) : Bool :=
  decide (countDay < 5) && decide (castlesSize = 1)

/-- Lines 109-113: the value of `heroLimit` after the three statements

    size_t heroLimit = Maps::XLARGE > world.w() ? ( Maps::LARGE > world.w() ? 2 : 3 ) : 4;
    if ( _personality == EXPLORER ) heroLimit++;
    if ( slowEarlyGame ) heroLimit = 2;
-/
def heroLimit (g : Game) (w : Nat) (personality : Personality) (slow : Bool) : Nat :=
  let heroLimit := if g.XLARGE > w then (if g.LARGE > w then 2 else 3) else 4
  let heroLimit := if personality = Personality.EXPLORER then heroLimit + 1 else heroLimit
  if slow then 2 else heroLimit

/-! ## The collaborators of `KingdomTurn` -/

/-- A `Heroes *` of the source: the identity of a hero. -/
abbrev HeroId := Nat

/-- A `Castle *` of the source: the identity of a castle. -/
abbrev CastleId := Nat

/-- The calls `KingdomTurn` makes to operations that act on the game, the
screen or the music player, recorded in the order they are made. -/
inductive Call where
  | LossPostActions
  | RedrawTurnProgress (value : Nat)
  | PlayMusic
  | RecruitHero (castle : CastleId)
  | ReinforceHeroInCastle (hero : HeroId) (castle : CastleId)
  | HeroTurn (hero : HeroId)
  | CastleTurn (castle : CastleId)
  deriving DecidableEq, Repr

/-- The kingdom, the world, the heroes and the castles as `KingdomTurn`
sees them, over a game state `σ` that the external operations transform.
The status window and the music player are not part of the game state:
`RedrawTurnProgress` and `PlayMusic` are recorded as calls only. -/
structure Collaborators (σ : Type) where
  /-- The call `kingdom.isLoss()`. -/
  isLoss : σ → Bool
  /-- The call `kingdom.GetColor()`. -/
  GetColor : σ → Int
  /-- The call `kingdom.LossPostActions()`. -/
  LossPostActions : σ → σ
  /-- The collection `kingdom.GetHeroes()`, a vector of possibly null pointers. -/
  GetHeroes : σ → List (Option HeroId)
  /-- The collection `kingdom.GetCastles()`, a vector of possibly null pointers. -/
  GetCastles : σ → List (Option CastleId)
  /-- The width `world.w()`. -/
  w : σ → Nat
  /-- The height `world.h()`. -/
  h : σ → Nat
  /-- The call `world.GetTiles( idx )`. -/
  GetTiles : σ → Nat → Tiles
  /-- The call `world.CountDay()`. -/
  CountDay : σ → Nat
  /-- The call `castles.GetFirstCastle()`, `none` for a null pointer. -/
  GetFirstCastle : σ → Option CastleId
  /-- The call `castle->GetHeroes().Guest()`, `none` for a null pointer. -/
  Guest : σ → CastleId → Option HeroId
  /-- The call `kingdom.GetRecruits().GetHero1()`. -/
  GetHero1 : σ → Option HeroId
  /-- The call `castle->RecruitHero( hero )`: the recruited hero, `none` for
  a null pointer, and the game after the attempt. -/
  RecruitHero : CastleId → Option HeroId → σ → Option HeroId × σ
  /-- The call `ReinforceHeroInCastle( hero, castle, kingdom.GetFunds() )`. -/
  ReinforceHeroInCastle : HeroId → CastleId → σ → σ
  /-- The value `hero->GetArmy().GetStrength()`. -/
  GetStrength : σ → HeroId → Nat
  /-- The test `hero->Modes( HERO_MOVED )`. -/
  Modes_HERO_MOVED : σ → HeroId → Bool
  /-- The call `HeroTurn( hero )`. -/
  HeroTurn : HeroId → σ → σ
  /-- The call `CastleTurn( castle )`. -/
  CastleTurn : CastleId → σ → σ

/-- The members of `AI::Normal` the function uses. -/
structure Normal where
  /-- The member `mapObjects`, a vector of (tile index, object id). -/
  mapObjects : List (Nat × Int)
  /-- The member `_personality`. -/
  personality : Personality

/-- The running state of one `KingdomTurn`: the game, the AI object and the
calls made so far (oldest first). -/
structure Run (σ : Type) where
  /-- The game state. -/
  st : σ
  /-- The AI object. -/
  ai : Normal
  /-- The calls made so far. -/
  calls : List Call

/-- Record a call. -/
def Run.log {σ : Type} (r : Run σ) (call : Call) : Run σ :=
  { r with calls := r.calls ++ [call] }

/-! ## `std::sort` and the comparator of lines 135-139 -/

/-- The lambda of lines 135-139:

    if ( left && right ) return left->GetArmy().GetStrength() < right->GetArmy().GetStrength();
    return right == NULL;
-/
def heroCompare (strength : HeroId → Nat) (left right : Option HeroId) : Bool :=
  match left, right with
  | some l, some r => decide (strength l < strength r)
  | _, right => right.isNone

/-- The inner loop `__unguarded_linear_insert` of the library's insertion
sort: `val` moves towards the front past every element it compares less
than. The argument is the part of the range before `val`, read from its
last element backwards, and so is the result. The loop has no bound check:
running off the front of the range is `none`. -/
def unguardedLinearInsert {α : Type} (comp : α → α → Bool) (val : α) : List α → Option (List α)
  | [] => none
  | next :: before =>
    if comp val next then
      (unguardedLinearInsert comp val before).map (fun moved => next :: moved)
    else
      some (val :: next :: before)

/-- One round of the outer loop of `__insertion_sort`: when `val` compares
less than the first element it is moved to the front, otherwise it is
inserted by `unguardedLinearInsert`. The sorted part of the range is kept
from its last element backwards. -/
def insertionStep {α : Type} (comp : α → α → Bool) (sortedRev : List α) (val : α) : Option (List α) :=
  match sortedRev.getLast? with
  | none => some [val]
  | some first =>
    if comp val first then some (sortedRev ++ [val])
    else unguardedLinearInsert comp val sortedRev

/-- The library function `__insertion_sort( first, last, comp )` on a range
that starts at the begin of the vector; `none` when an insertion leaves
the vector (the guard of `insertionStep` rules that out). -/
def insertionSort {α : Type} (comp : α → α → Bool) : List α → Option (List α)
  | [] => some []
  | first :: rest => (rest.foldlM (insertionStep comp) [first]).map List.reverse

/-! ### The rest of `std::sort`, as libstdc++ writes it (`bits/stl_algo.h`, `bits/stl_heap.h`)

The vector is a list, an iterator is an index into it, and every read or
write at an index outside the vector is `none`. Loops that the library
runs without a bound are given a fuel that they cannot use up inside the
vector. -/

/-- The assignment `*( begin + i ) = v`. -/
def writeAt {α : Type} (a : List α) (i : Nat) (v : α) : Option (List α) :=
  if i < a.length then some (a.set i v) else none

/-- The call `std::iter_swap( begin + i, begin + j )`. -/
def iterSwap {α : Type} (a : List α) (i j : Nat) : Option (List α) :=
  match a[i]?, a[j]? with
  | some x, some y => some ((a.set i y).set j x)
  | _, _ => none

/-- The library function `__move_median_to_first( result, a, b, c, comp )`. -/
def moveMedianToFirst {α : Type} (comp : α → α → Bool) (a : List α) (result ia ib ic : Nat) :
    Option (List α) :=
  match a[ia]?, a[ib]?, a[ic]? with
  | some x, some y, some z =>
    if comp x y then
      if comp y z then iterSwap a result ib
      else if comp x z then iterSwap a result ic
      else iterSwap a result ia
    else if comp x z then iterSwap a result ia
    else if comp y z then iterSwap a result ic
    else iterSwap a result ib
  | _, _, _ => none

/-- The loop `while ( comp( first, pivot ) ) ++first;` of
`__unguarded_partition`: the index it stops at. -/
def partitionUp {α : Type} (comp : α → α → Bool) (a : List α) (pivot : Nat) : Nat → Nat → Option Nat
  | 0, _ => none
  | fuel + 1, first =>
    match a[first]?, a[pivot]? with
    | some x, some p => if comp x p then partitionUp comp a pivot fuel (first + 1) else some first
    | _, _ => none

/-- The loop `while ( comp( pivot, last ) ) --last;` of
`__unguarded_partition`, from the index `last` already decremented once:
the index it stops at. -/
def partitionDown {α : Type} (comp : α → α → Bool) (a : List α) (pivot : Nat) : Nat → Option Nat
  | 0 =>
    match a[0]?, a[pivot]? with
    | some x, some p => if comp p x then none else some 0
    | _, _ => none
  | last + 1 =>
    match a[last + 1]?, a[pivot]? with
    | some x, some p => if comp p x then partitionDown comp a pivot last else some (last + 1)
    | _, _ => none

/-- The library function `__unguarded_partition( first, last, pivot, comp )`:
the vector after the swaps and the cut. -/
def unguardedPartition {α : Type} (comp : α → α → Bool) (pivot : Nat) :
    Nat → List α → Nat → Nat → Option (List α × Nat)
  | 0, _, _, _ => none
  | fuel + 1, a, first, last =>
    match partitionUp comp a pivot (a.length + 1) first with
    | none => none
    | some first =>
      match last with
      | 0 => none
      | last + 1 =>
        match partitionDown comp a pivot last with
        | none => none
        | some last =>
          if !(first < last) then some (a, first)
          else
            match iterSwap a first last with
            | none => none
            | some a => unguardedPartition comp pivot fuel a (first + 1) last

/-- The library function `__unguarded_partition_pivot( first, last, comp )`. -/
def unguardedPartitionPivot {α : Type} (comp : α → α → Bool) (a : List α) (first last : Nat) :
    Option (List α × Nat) :=
  let mid := first + (last - first) / 2
  match moveMedianToFirst comp a first (first + 1) mid (last - 1) with
  | none => none
  | some a => unguardedPartition comp first (a.length + 1) a (first + 1) last

/-- The library function `__push_heap( first, holeIndex, topIndex, value, comp )`. -/
def pushHeap {α : Type} (comp : α → α → Bool) (first topIndex : Nat) (value : α) :
    Nat → List α → Nat → Option (List α)
  | 0, _, _ => none
  | fuel + 1, a, holeIndex =>
    let parent := (holeIndex - 1) / 2
    if holeIndex > topIndex then
      match a[first + parent]? with
      | none => none
      | some p =>
        if comp p value then
          match writeAt a (first + holeIndex) p with
          | none => none
          | some a => pushHeap comp first topIndex value fuel a parent
        else writeAt a (first + holeIndex) value
    else writeAt a (first + holeIndex) value

/-- The loop `while ( secondChild < ( len - 1 ) / 2 )` of `__adjust_heap`:
the vector, the hole and the second child it ends with. -/
def adjustHeapDown {α : Type} (comp : α → α → Bool) (first len : Nat) :
    Nat → List α → Nat → Nat → Option (List α × Nat × Nat)
  | 0, _, _, _ => none
  | fuel + 1, a, holeIndex, secondChild =>
    if secondChild < (len - 1) / 2 then
      let child := 2 * (secondChild + 1)
      match a[first + child]?, a[first + (child - 1)]? with
      | some x, some y =>
        let child := if comp x y then child - 1 else child
        match a[first + child]? with
        | none => none
        | some moved =>
          match writeAt a (first + holeIndex) moved with
          | none => none
          | some a => adjustHeapDown comp first len fuel a child child
      | _, _ => none
    else some (a, holeIndex, secondChild)

/-- The library function `__adjust_heap( first, holeIndex, len, value, comp )`. -/
def adjustHeap {α : Type} (comp : α → α → Bool) (a : List α) (first holeIndex len : Nat) (value : α) :
    Option (List α) :=
  match adjustHeapDown comp first len (len + 1) a holeIndex holeIndex with
  | none => none
  | some (a, hole, secondChild) =>
    if len % 2 = 0 ∧ secondChild = (len - 2) / 2 then
      let child := 2 * (secondChild + 1)
      match a[first + (child - 1)]? with
      | none => none
      | some moved =>
        match writeAt a (first + hole) moved with
        | none => none
        | some a => pushHeap comp first holeIndex value (len + 1) a (child - 1)
    else pushHeap comp first holeIndex value (len + 1) a hole

/-- The library function `__pop_heap( first, last, result, comp )`. -/
def popHeap {α : Type} (comp : α → α → Bool) (a : List α) (first last result : Nat) : Option (List α) :=
  match a[result]?, a[first]? with
  | some value, some top =>
    match writeAt a result top with
    | none => none
    | some a => adjustHeap comp a first 0 (last - first) value
  | _, _ => none

/-- The loop of `__make_heap` from the index `parent` down to 0. -/
def makeHeapFrom {α : Type} (comp : α → α → Bool) (first len : Nat) : Nat → List α → Option (List α)
  | 0, a =>
    match a[first]? with
    | none => none
    | some value => adjustHeap comp a first 0 len value
  | parent + 1, a =>
    match a[first + (parent + 1)]? with
    | none => none
    | some value =>
      match adjustHeap comp a first (parent + 1) len value with
      | none => none
      | some a => makeHeapFrom comp first len parent a

/-- The library function `__make_heap( first, last, comp )`. -/
def makeHeap {α : Type} (comp : α → α → Bool) (a : List α) (first last : Nat) : Option (List α) :=
  if last - first < 2 then some a
  else makeHeapFrom comp first (last - first) ((last - first - 2) / 2) a

/-- The library function `__sort_heap( first, last, comp )`. -/
def sortHeap {α : Type} (comp : α → α → Bool) (first : Nat) : Nat → List α → Nat → Option (List α)
  | 0, _, _ => none
  | fuel + 1, a, last =>
    if last - first > 1 then
      match popHeap comp a first (last - 1) (last - 1) with
      | none => none
      | some a => sortHeap comp first fuel a (last - 1)
    else some a

/-- The call `__partial_sort( first, last, last, comp )` of
`__introsort_loop`: the heap sort of the range. -/
def heapSortRange {α : Type} (comp : α → α → Bool) (a : List α) (first last : Nat) : Option (List α) :=
  match makeHeap comp a first last with
  | none => none
  | some a => sortHeap comp first (a.length + 1) a last

/-- The library function `__introsort_loop( first, last, depth_limit, comp )`,
with the threshold `_S_threshold = 16`. -/
def introsortLoop {α : Type} (comp : α → α → Bool) : Nat → List α → Nat → Nat → Option (List α)
  | 0, a, first, last =>
    if last - first > 16 then heapSortRange comp a first last else some a
  | depthLimit + 1, a, first, last =>
    if last - first > 16 then
      match unguardedPartitionPivot comp a first last with
      | none => none
      | some (a, cut) =>
        match introsortLoop comp depthLimit a cut last with
        | none => none
        | some a => introsortLoop comp depthLimit a first cut
    else some a

/-- The library function `__final_insertion_sort( begin, end, comp )`: up
to 16 elements an insertion sort of the whole vector, beyond that an
insertion sort of the first 16 elements followed by
`__unguarded_insertion_sort` of the others. -/
def finalInsertionSort {α : Type} (comp : α → α → Bool) (a : List α) : Option (List α) :=
  if a.length > 16 then
    match insertionSort comp (a.take 16) with
    | none => none
    | some head =>
      ((a.drop 16).foldlM (fun sortedRev val => unguardedLinearInsert comp val sortedRev)
        head.reverse).map List.reverse
  else insertionSort comp a

/-- The library function `__lg`, the binary logarithm rounded down, by
halving. -/
def lgFrom : Nat → Nat → Nat
  | 0, _ => 0
  | fuel + 1, n => if n ≥ 2 then lgFrom fuel (n / 2) + 1 else 0

/-- The library function `__lg( n )`. -/
def lg (n : Nat) : Nat := lgFrom n n

/-- The call `std::sort( begin, end, comp )` on a whole vector, as
libstdc++ runs it: `__introsort_loop` with depth limit `2 * __lg( n )`,
then `__final_insertion_sort`. The result is `none` when the sort reads or
writes outside the vector, which a comparator that is not a strict weak
ordering can make it do. -/
def stdSort {α : Type} (comp : α → α → Bool) (a : List α) : Option (List α) :=
  if a.length = 0 then some a
  else
    match introsortLoop comp (lg a.length * 2) a 0 a.length with
    | none => none
    | some a => finalInsertionSort comp a

/-- Lines 134-139: the copy of the hero list, sorted. -/
def sortedHeroList {σ : Type} (c : Collaborators σ) (s : σ) : Option (List (Option HeroId)) :=
  stdSort (heroCompare (c.GetStrength s)) (c.GetHeroes s)

/-! ## `AI::Normal::KingdomTurn` (lines 60-173), phase by phase -/

/-- Lines 83-93: `mapObjects.clear()` followed by the loop over
`idx = 0 .. mapSize - 1`, which appends `( idx, objectID )` for every tile
that `IsValidKingdomObject` accepts with its primary object. -/
def scanMap {σ : Type} (g : Game) (c : Collaborators σ) (s : σ) (color : Int) (mapSize : Nat)
    (ai : Normal) : Normal :=
  (List.range mapSize).foldl
    (fun ai idx =>
      let tile := c.GetTiles s idx
      let objectID := tile.GetObject
      if !IsValidKingdomObject g tile objectID color then ai
      else { ai with mapObjects := ai.mapObjects ++ [(idx, objectID)] })
    { ai with mapObjects := [] }

/-- Lines 118-131: the recruitment step. -/
def recruitStep {σ : Type} (c : Collaborators σ) (slow : Bool) (limit : Nat) (r : Run σ) : Run σ :=
  match c.GetFirstCastle r.st with
  | none => r
  | some castle =>
    if (c.GetHeroes r.st).length < limit then
      match c.Guest r.st castle with
      | some _ => r
      | none =>
        let recruited := c.RecruitHero castle (c.GetHero1 r.st) r.st
        let r1 : Run σ := { r with st := recruited.2, calls := r.calls ++ [Call.RecruitHero castle] }
        match recruited.1 with
        | some hero =>
          if !slow then
            { r1 with st := c.ReinforceHeroInCastle hero castle r1.st,
                      calls := r1.calls ++ [Call.ReinforceHeroInCastle hero castle] }
          else r1
        | none => r1
    else r

/-- The argument `2 + ( 7 * heroesMovedCount / sortedHeroList.size() )` of
lines 151 and 161; `none` when the division is by zero. -/
def turnProgress (heroesMovedCount size : Nat) : Option Nat :=
  if size = 0 then none else some (2 + 7 * heroesMovedCount / size)

/-- Lines 145-154: the first movement pass over the rest of the sorted
copy, from the running state and the counter `heroesMovedCount`; `size`
is `sortedHeroList.size()`. -/
def movePass1 {σ : Type} (c : Collaborators σ) (size : Nat) :
    List (Option HeroId) → Run σ → Nat → Option (Run σ × Nat)
  | [], r, heroesMovedCount => some (r, heroesMovedCount)
  | none :: rest, r, heroesMovedCount => movePass1 c size rest r heroesMovedCount
  | some hero :: rest, r, heroesMovedCount =>
    let r1 : Run σ := { r with st := c.HeroTurn hero r.st, calls := r.calls ++ [Call.HeroTurn hero] }
    if c.Modes_HERO_MOVED r1.st hero then
      match turnProgress (heroesMovedCount + 1) size with
      | none => none
      | some value => movePass1 c size rest (r1.log (Call.RedrawTurnProgress value)) (heroesMovedCount + 1)
    else
      movePass1 c size rest r1 heroesMovedCount

/-- Lines 157-163: the second movement pass over the rest of the same
sorted copy. -/
def movePass2 {σ : Type} (c : Collaborators σ) (size : Nat) :
    List (Option HeroId) → Run σ → Nat → Option (Run σ × Nat)
  | [], r, heroesMovedCount => some (r, heroesMovedCount)
  | none :: rest, r, heroesMovedCount => movePass2 c size rest r heroesMovedCount
  | some hero :: rest, r, heroesMovedCount =>
    if !c.Modes_HERO_MOVED r.st hero then
      let r1 : Run σ := { r with st := c.HeroTurn hero r.st, calls := r.calls ++ [Call.HeroTurn hero] }
      match turnProgress (heroesMovedCount + 1) size with
      | none => none
      | some value => movePass2 c size rest (r1.log (Call.RedrawTurnProgress value)) (heroesMovedCount + 1)
    else
      movePass2 c size rest r heroesMovedCount

/-- Lines 168-172: the castle turns, over the castle collection as it is
when the loop starts. -/
def castlesPass {σ : Type} (c : Collaborators σ) : List (Option CastleId) → Run σ → Run σ
  | [], r => r
  | none :: rest, r => castlesPass c rest r
  | some castle :: rest, r =>
    castlesPass c rest
      { r with st := c.CastleTurn castle r.st, calls := r.calls ++ [Call.CastleTurn castle] }

/-- Lines 70-97 for a kingdom that goes on with its turn: the progress
indicator is reset, the music starts, the map is scanned into `mapObjects`
(Step 1) and the progress is redrawn at 1. -/
def scanPhase {σ : Type} (g : Game) (c : Collaborators σ) (ai : Normal) (s : σ) : Run σ :=
  let color := c.GetColor s
  let r0 : Run σ := { st := s, ai := ai, calls := [Call.RedrawTurnProgress 0, Call.PlayMusic] }
  let mapSize := c.w s * c.h s
  ({ r0 with ai := scanMap g c s color mapSize r0.ai }).log (Call.RedrawTurnProgress 1)

/-- Lines 99-131, after the scan: `slowEarlyGame` and `heroLimit` are
computed (Step 2) and the recruitment step runs (Step 3, first half). -/
def recruitPhase {σ : Type} (g : Game) (c : Collaborators σ) (ai : Normal) (s : σ) : Run σ :=
  let slow := slowEarlyGame (c.CountDay s) (c.GetCastles s).length
  let limit := heroLimit g (c.w s) ai.personality slow
  recruitStep c slow limit (scanPhase g c ai s)

/-- The game after the turns of the given castles, one after the other. -/
def afterCastleTurns {σ : Type} (c : Collaborators σ) (castles : List CastleId) (s : σ) : σ :=
  castles.foldl (fun st castle => c.CastleTurn castle st) s

/-- Lines 141-172, from the sorted copy of the hero list on: the redraw at
2, the two movement passes over the copy (Steps 4 and 5), the redraw at 9
and the castle turns (Step 6); `none` when a pass divides by zero. -/
def turnAfterSort {σ : Type} (c : Collaborators σ) (sorted : List (Option HeroId)) (r2 : Run σ) :
    Option (Run σ) :=
  let r3 := r2.log (Call.RedrawTurnProgress 2)
  -- Step 4
  match movePass1 c sorted.length sorted r3 0 with
  | none => none
  | some (r4, moved1) =>
    -- Step 5
    match movePass2 c sorted.length sorted r4 moved1 with
    | none => none
    | some (r5, _) =>
      let r6 := r5.log (Call.RedrawTurnProgress 9)
      -- Step 6
      some (castlesPass c (c.GetCastles r6.st) r6)

/-- Embedding of `void Normal::KingdomTurn( Kingdom & kingdom )`: from the
AI object and the game before the turn to the running state at the return,
`none` when the turn would divide by zero or sort outside its vector. The
locals `difficulty` and `combinedHeroStrength` are computed by the source
and never read; they are left out. -/
def KingdomTurn {σ : Type} (g : Game) (c : Collaborators σ) (ai : Normal) (s : σ) :
    Option (Run σ) :=
  let color := c.GetColor s
  if c.isLoss s || decide (color = g.NONE) then
    some { st := c.LossPostActions s, ai := ai, calls := [Call.LossPostActions] }
  else
    -- Steps 1 to 3, up to the recruitment
    let r2 := recruitPhase g c ai s
    -- Step 3, the sorted copy of the hero list
    match sortedHeroList c r2.st with
    | none => none
    | some sorted => turnAfterSort c sorted r2

/-! ## Sample data

Concrete games, tiles and kingdoms on which the definitions above are
evaluated. -/

/-- A sample game: castle and hero object ids 163 and 183, mines (151) and
castles capturable, resources (155) carrying a quantity, every id from 128
on a ground object, the colours 1 and 2 allied and every colour a friend
of itself, allied castle visiting allowed, map sizes 108 and 144. -/
def sampleGame : Game where
  OBJ_CASTLE := 163
  OBJ_HEROES := 183
  isGroundObject := fun obj => decide (128 ≤ obj)
  isCaptureObject := fun obj => decide (obj = 163) || decide (obj = 151)
  isQuantityObject := fun obj => decide (obj = 155)
  isFriends := fun player colors =>
    decide (player = colors) || (decide (player = 1) && decide (colors = 2))
      || (decide (player = 2) && decide (colors = 1))
  ExtUnionsAllowCastleVisiting := true
  LARGE := 108
  XLARGE := 144
  NONE := 0

/-- The sample game with allied castle visiting switched off. -/
def strictGame : Game := { sampleGame with ExtUnionsAllowCastleVisiting := false }

/-- An unfogged castle tile of colour `owner` with a guest hero of the same
colour standing in it. -/
def castleTile (owner : Int) : Tiles where
  isFog := fun _ => false
  GetObjectFalse := 163
  GetObject := 183
  QuantityColor := owner
  QuantityIsValid := false
  GetHeroes := some { GetColor := owner }

/-- An unfogged tile of open ground with a hero of colour `heroColor`
standing on a mine of colour `owner` whose quantity is not valid. -/
def mineTile (owner heroColor : Int) : Tiles where
  isFog := fun _ => false
  GetObjectFalse := 151
  GetObject := 183
  QuantityColor := owner
  QuantityIsValid := false
  GetHeroes := some { GetColor := heroColor }

/-- An unfogged tile holding a resource pile whose quantity is not valid. -/
def emptyPileTile : Tiles where
  isFog := fun _ => false
  GetObjectFalse := 155
  GetObject := 155
  QuantityColor := 0
  QuantityIsValid := false
  GetHeroes := none

/-- The order in which two slots of the hero list may follow each other
in the schedule: two present heroes by non-decreasing strength, an absent
slot never before a present hero. -/
def slotLE (strength : HeroId → Nat) : Option HeroId → Option HeroId → Prop
  | some a, some b => strength a ≤ strength b
  | none, some _ => False
  | _, none => True

/-- A small concrete game state for the sample kingdoms. -/
structure SampleState where
  /-- Whether the kingdom has lost. -/
  lost : Bool
  /-- The colour of the kingdom. -/
  color : Int
  /-- The hero list of the kingdom. -/
  heroes : List (Option HeroId)
  /-- The castle list of the kingdom. -/
  castles : List (Option CastleId)
  /-- The width of the world. -/
  w : Nat
  /-- The height of the world. -/
  h : Nat
  /-- The tiles of the world. -/
  tiles : Nat → Tiles
  /-- The day count. -/
  day : Nat
  /-- The army strength of every hero. -/
  strength : HeroId → Nat
  /-- The heroes that carry the MOVED flag. -/
  moved : List HeroId
  /-- The heroes that have had a turn without moving. -/
  waited : List HeroId
  /-- The guest hero of the first castle. -/
  guest : Option HeroId
  /-- The first hero of the recruit pool. -/
  pool : Option HeroId
  /-- The castles developed so far. -/
  developed : List CastleId

/-- Sample collaborators over `SampleState`: a hero of strength 10 or more
moves on its first turn, a weaker one waits on its first turn and moves on
its second; recruiting takes the pool hero into the castle and the hero
list; reinforcing adds 10 to the strength of the hero; losing empties the
kingdom. -/
def sampleCollaborators : Collaborators SampleState where
  isLoss := fun s => s.lost
  GetColor := fun s => s.color
  LossPostActions := fun s => { s with heroes := [], castles := [] }
  GetHeroes := fun s => s.heroes
  GetCastles := fun s => s.castles
  w := fun s => s.w
  h := fun s => s.h
  GetTiles := fun s idx => s.tiles idx
  CountDay := fun s => s.day
  GetFirstCastle := fun s => s.castles.findSome? id
  Guest := fun s _ => s.guest
  GetHero1 := fun s => s.pool
  RecruitHero := fun _ hero s =>
    match hero with
    | some recruit =>
      (some recruit, { s with heroes := s.heroes ++ [some recruit], guest := some recruit, pool := none })
    | none => (none, s)
  ReinforceHeroInCastle := fun hero _ s =>
    { s with strength := fun other => if other = hero then s.strength other + 10 else s.strength other }
  GetStrength := fun s => s.strength
  Modes_HERO_MOVED := fun s hero => decide (hero ∈ s.moved)
  HeroTurn := fun hero s =>
    if 10 ≤ s.strength hero ∨ hero ∈ s.waited then { s with moved := hero :: s.moved }
    else { s with waited := hero :: s.waited }
  CastleTurn := fun castle s => { s with developed := s.developed ++ [castle] }

/-- The tiles of the sample worlds: the castle of colour 1 with its guest on
tile 0, a hero of colour 4 on a mine of colour 4 on tile 2, a fogged mine
on tile 3, an exhausted resource pile on tile 4, and open ground (object
id 0, not a ground object) everywhere else. -/
def sampleTiles (idx : Nat) : Tiles :=
  if idx = 0 then castleTile 1
  else if idx = 2 then mineTile 4 4
  else if idx = 3 then { mineTile 4 4 with isFog := fun _ => true, GetObject := 151, GetHeroes := none }
  else if idx = 4 then emptyPileTile
  else { emptyPileTile with GetObjectFalse := 0, GetObject := 0 }

/-- The kingdom of colour 1 on a 3 by 2 world on day 10, with two castles,
the heroes 0, 1, 2 of strengths 5, 80, 30 and an absent slot. -/
def sampleKingdom : SampleState where
  lost := false
  color := 1
  heroes := [some 0, some 1, some 2, none]
  castles := [some 0, none, some 1]
  w := 3
  h := 2
  tiles := sampleTiles
  day := 10
  strength := fun hero => [5, 80, 30].getD hero 0
  moved := []
  waited := []
  guest := some 1
  pool := some 7
  developed := []

/-- The sample kingdom after it has lost. -/
def lostKingdom : SampleState := { sampleKingdom with lost := true }

/-- A sample AI object: a non-explorer personality and a working set left
over from an earlier turn. -/
def sampleAI : Normal where
  mapObjects := [(5, 151), (1, 155)]
  personality := Personality.OTHER 0

/-! ## Reading the calls of a turn -/

/-- The heroes whose turn is run, in the order of the calls. -/
def heroTurns (calls : List Call) : List HeroId :=
  calls.filterMap (fun call => match call with
    | Call.HeroTurn hero => some hero
    | _ => none)

/-- The castles whose turn is run, in the order of the calls. -/
def castleTurns (calls : List Call) : List CastleId :=
  calls.filterMap (fun call => match call with
    | Call.CastleTurn castle => some castle
    | _ => none)

/-- The castles in which a recruitment is attempted, in the order of the
calls. -/
def recruitAttempts (calls : List Call) : List CastleId :=
  calls.filterMap (fun call => match call with
    | Call.RecruitHero castle => some castle
    | _ => none)

/-- The reinforcements requested, in the order of the calls. -/
def reinforcements (calls : List Call) : List (HeroId × CastleId) :=
  calls.filterMap (fun call => match call with
    | Call.ReinforceHeroInCastle hero castle => some (hero, castle)
    | _ => none)

/-- The values passed to `RedrawTurnProgress`, in the order of the calls. -/
def progressValues (calls : List Call) : List Nat :=
  calls.filterMap (fun call => match call with
    | Call.RedrawTurnProgress value => some value
    | _ => none)

/-- The calls a movement pass can make: a hero turn or a redraw of the
progress. -/
def Call.isMove : Call → Bool
  | Call.HeroTurn _ => true
  | Call.RedrawTurnProgress _ => true
  | _ => false

/-! ## The movement passes as the spec words them -/

/-- The heroes of pass 1 that carry the MOVED flag right after their turn,
for which the progress counter is advanced, from the game at the start of
the pass. -/
def movedInPass1 {σ : Type} (c : Collaborators σ) : List (Option HeroId) → σ → List HeroId
  | [], _ => []
  | none :: rest, s => movedInPass1 c rest s
  | some hero :: rest, s =>
    if c.Modes_HERO_MOVED (c.HeroTurn hero s) hero then hero :: movedInPass1 c rest (c.HeroTurn hero s)
    else movedInPass1 c rest (c.HeroTurn hero s)

/-- The retry of the spec: "for every agent in the same sorted snapshot
that does not carry MOVED, invoke the per-agent-turn operation again";
the heroes retried, in order, from the game at the start of pass 2. A hero
is looked at when the pass reaches it, after the retries before it. -/
def retrySchedule {σ : Type} (c : Collaborators σ) : List (Option HeroId) → σ → List HeroId
  | [], _ => []
  | none :: rest, s => retrySchedule c rest s
  | some hero :: rest, s =>
    if c.Modes_HERO_MOVED s hero then retrySchedule c rest s
    else hero :: retrySchedule c rest (c.HeroTurn hero s)

/-- The game after the turns of the given heroes, one after the other. -/
def afterHeroTurns {σ : Type} (c : Collaborators σ) (heroes : List HeroId) (s : σ) : σ :=
  heroes.foldl (fun st hero => c.HeroTurn hero st) s

/-- The slots of a hero list that hold a hero of army strength `v`. -/
def hasStrength (strength : HeroId → Nat) (v : Nat) (slot : Option HeroId) : Bool :=
  match slot with
  | some hero => decide (strength hero = v)
  | none => false

/-- The kingdom of the first end-to-end scenario of the spec: colour 1 on a
20 by 20 world on day 3, one castle without a guest, no hero, and hero 7
first in the recruit pool. -/
def earlyKingdom : SampleState :=
  { sampleKingdom with
    heroes := [], castles := [some 0], w := 20, h := 20, day := 3, guest := none, pool := some 7 }

/-- The sorted copy of the hero list that the movement passes of the turn
go through (empty if the sort did not return). -/
def snapshot {σ : Type} (g : Game) (c : Collaborators σ) (ai : Normal) (s : σ) :
    List (Option HeroId) :=
  (sortedHeroList c (recruitPhase g c ai s).st).getD []

/-- The game when pass 2 of the turn starts: after the recruitment step and
the turn of every present hero of the snapshot. -/
def pass2Start {σ : Type} (g : Game) (c : Collaborators σ) (ai : Normal) (s : σ) : σ :=
  afterHeroTurns c ((snapshot g c ai s).filterMap id) (recruitPhase g c ai s).st

/-- The game when the castle pass of the turn starts: after the retries of
pass 2. -/
def castlesStart {σ : Type} (g : Game) (c : Collaborators σ) (ai : Normal) (s : σ) : σ :=
  afterHeroTurns c (retrySchedule c (snapshot g c ai s) (pass2Start g c ai s)) (pass2Start g c ai s)

/-- The game when pass 2 starts, for a sorted copy `sorted` handed to the
passes in the game `st`: after the turn of every present hero of the copy. -/
def pass2StartOf {σ : Type} (c : Collaborators σ) (sorted : List (Option HeroId)) (st : σ) : σ :=
  afterHeroTurns c (sorted.filterMap id) st

/-- The game when the castle pass starts, for a sorted copy `sorted` handed
to the passes in the game `st`: after the retries of pass 2. -/
def castlesStartOf {σ : Type} (c : Collaborators σ) (sorted : List (Option HeroId)) (st : σ) : σ :=
  afterHeroTurns c (retrySchedule c sorted (pass2StartOf c sorted st)) (pass2StartOf c sorted st)

/-- The sample kingdom with a hero list of 17 absent slots. -/
def crowdedKingdom : SampleState := { sampleKingdom with heroes := List.replicate 17 none }

/-- The sample kingdom with the 20 heroes 0 to 19 in this order, hero `i` of
army strength `10 + i % 3`. -/
def twentyHeroes : SampleState :=
  { sampleKingdom with heroes := (List.range 20).map some, strength := fun hero => 10 + hero % 3 }

/-- The sample kingdom with the four heroes 0 to 3 of strengths 30, 5, 30, 5. -/
def fourHeroes : SampleState :=
  { sampleKingdom with
    heroes := [some 0, some 1, some 2, some 3],
    strength := fun hero => [30, 5, 30, 5].getD hero 0 }

/-- The sorted copy of the hero list of the sample kingdom. -/
def sampleSorted : List (Option HeroId) := [some 0, some 2, some 1, none]

/-! ## The hero limit -/

/-- C1, as the spec states it, fails: on a world of width 36, below both
map-size thresholds of the sample game, a non-explorer kingdom outside the
early game gets the limit 2, not 4. -/
theorem heroLimit_small_world_is_not_four :
    36 < sampleGame.LARGE ∧ 36 < sampleGame.XLARGE ∧
      slowEarlyGame 10 3 = false ∧
      heroLimit sampleGame 36 (Personality.OTHER 0) (slowEarlyGame 10 3) = 2 ∧
      heroLimit sampleGame 36 (Personality.OTHER 0) (slowEarlyGame 10 3) ≠ 4 := by
  decide

/-- C1, amended: for a kingdom that is not an explorer and not in the early
game with one castle, with `Maps::LARGE` the lower threshold, the hero
limit is 2 below `Maps::LARGE`, 3 from `Maps::LARGE` up to below
`Maps::XLARGE`, and 4 from `Maps::XLARGE` on; a wider world never gets a
smaller limit. -/
theorem heroLimit_by_width (g : Game) (personality : Personality) (countDay castlesSize : Nat)
    (hthresholds : g.LARGE ≤ g.XLARGE)
    (hpersonality : personality ≠ Personality.EXPLORER)
    (hslow : ¬ (countDay < 5 ∧ castlesSize = 1)) :
    (∀ w, w < g.LARGE →
        heroLimit g w personality (slowEarlyGame countDay castlesSize) = 2) ∧
      (∀ w, g.LARGE ≤ w → w < g.XLARGE →
        heroLimit g w personality (slowEarlyGame countDay castlesSize) = 3) ∧
      (∀ w, g.XLARGE ≤ w →
        heroLimit g w personality (slowEarlyGame countDay castlesSize) = 4) ∧
      (∀ w w', w ≤ w' →
        heroLimit g w personality (slowEarlyGame countDay castlesSize)
          ≤ heroLimit g w' personality (slowEarlyGame countDay castlesSize)) := by
  have hs : slowEarlyGame countDay castlesSize = false := by
    unfold slowEarlyGame
    by_cases hd : countDay < 5
    · by_cases hc : castlesSize = 1
      · exact absurd ⟨hd, hc⟩ hslow
      · simp [hc]
    · simp [hd]
  have hval : ∀ w, heroLimit g w personality (slowEarlyGame countDay castlesSize)
      = if g.XLARGE > w then (if g.LARGE > w then 2 else 3) else 4 := by
    intro w
    simp [heroLimit, hs, hpersonality]
  refine ⟨?_, ?_, ?_, ?_⟩
  · intro w hw
    rw [hval]
    have h1 : g.XLARGE > w := lt_of_lt_of_le hw hthresholds
    simp [h1, hw]
  · intro w hlo hhi
    rw [hval]
    have h2 : ¬ g.LARGE > w := not_lt.mpr hlo
    simp [hhi, h2]
  · intro w hw
    rw [hval]
    have h1 : ¬ g.XLARGE > w := not_lt.mpr hw
    simp [h1]
  · intro w w' hww
    rw [hval, hval]
    split_ifs <;> omega

/-- The amended C1 at the sample game, for a kingdom with three castles on
day 10. -/
theorem heroLimit_by_width_witness :
    sampleGame.LARGE ≤ sampleGame.XLARGE ∧
      Personality.OTHER 0 ≠ Personality.EXPLORER ∧
      ¬ (10 < 5 ∧ 3 = 1) ∧
      ((∀ w, w < sampleGame.LARGE →
          heroLimit sampleGame w (Personality.OTHER 0) (slowEarlyGame 10 3) = 2) ∧
        (∀ w, sampleGame.LARGE ≤ w → w < sampleGame.XLARGE →
          heroLimit sampleGame w (Personality.OTHER 0) (slowEarlyGame 10 3) = 3) ∧
        (∀ w, sampleGame.XLARGE ≤ w →
          heroLimit sampleGame w (Personality.OTHER 0) (slowEarlyGame 10 3) = 4) ∧
        (∀ w w', w ≤ w' →
          heroLimit sampleGame w (Personality.OTHER 0) (slowEarlyGame 10 3)
            ≤ heroLimit sampleGame w' (Personality.OTHER 0) (slowEarlyGame 10 3))) :=
  ⟨by decide, by decide, by decide,
    heroLimit_by_width sampleGame (Personality.OTHER 0) 10 3 (by decide) (by decide) (by decide)⟩

/-- C2: with fewer than 5 days elapsed and exactly one castle, the hero
limit is 2 for every width, every personality and every pair of map-size
thresholds. -/
theorem heroLimit_early_game (g : Game) (w : Nat) (personality : Personality)
    (countDay castlesSize : Nat) (hday : countDay < 5) (hcastles : castlesSize = 1) :
    heroLimit g w personality (slowEarlyGame countDay castlesSize) = 2 := by
  simp [heroLimit, slowEarlyGame, hday, hcastles]

/-- C2 on day 3 with one castle: an explorer on the widest world still gets
the limit 2. -/
theorem heroLimit_early_game_witness :
    3 < 5 ∧ 1 = 1 ∧
      heroLimit sampleGame 144 Personality.EXPLORER (slowEarlyGame 3 1) = 2 :=
  ⟨by decide, rfl, heroLimit_early_game sampleGame 144 Personality.EXPLORER 3 1 (by decide) rfl⟩

/-! ## The object classifier -/

/-- C3: a tile fogged for the kingdom colour is rejected, and so is an
object id that is not a ground object, whatever the tile holds and
whatever the game settings are. -/
theorem IsValidKingdomObject_fog_or_not_ground (g : Game) (tile : Tiles) (objectID kingdomColor : Int)
    (h : tile.isFog kingdomColor = true ∨ g.isGroundObject objectID = false) :
    IsValidKingdomObject g tile objectID kingdomColor = false := by
  unfold IsValidKingdomObject
  rcases h with h | h <;> simp [h]

/-- C3 on a fogged castle tile of the kingdom's own colour, which would be
accepted without the fog. -/
theorem IsValidKingdomObject_fog_or_not_ground_witness :
    (({ castleTile 1 with isFog := fun _ => true } : Tiles).isFog 1 = true
        ∨ sampleGame.isGroundObject 163 = false) ∧
      IsValidKingdomObject sampleGame (castleTile 1) 163 1 = true ∧
      IsValidKingdomObject sampleGame { castleTile 1 with isFog := fun _ => true } 163 1 = false :=
  ⟨Or.inl rfl, by decide,
    IsValidKingdomObject_fog_or_not_ground sampleGame { castleTile 1 with isFog := fun _ => true }
      163 1 (Or.inl rfl)⟩

/-- C4: on an unfogged tile whose base object is a castle, asked about a
ground object id: with allied castle visiting disabled and the owner a
friend of `F`, the tile is accepted exactly when the owner is `F`; with
visiting allowed, or the owner not a friend of `F`, it is accepted. -/
theorem IsValidKingdomObject_castle (g : Game) (tile : Tiles) (objectID F : Int)
    (hfog : tile.isFog F = false) (hground : g.isGroundObject objectID = true)
    (hcastle : tile.GetObjectFalse = g.OBJ_CASTLE) :
    ((g.ExtUnionsAllowCastleVisiting = false ∧ g.isFriends F tile.QuantityColor = true) →
        (IsValidKingdomObject g tile objectID F = true ↔ tile.QuantityColor = F)) ∧
      ((g.ExtUnionsAllowCastleVisiting = true ∨ g.isFriends F tile.QuantityColor = false) →
        IsValidKingdomObject g tile objectID F = true) := by
  unfold IsValidKingdomObject
  constructor
  · rintro ⟨hvisit, hfriend⟩
    simp [hfog, hground, hcastle, hvisit, hfriend]
    exact eq_comm
  · rintro (hvisit | hfriend)
    · simp [hfog, hground, hcastle, hvisit]
    · simp [hfog, hground, hcastle, hfriend]

/-- C4 with visiting disabled, for kingdom colour 1 and a castle of the
allied colour 2: the castle is rejected, as 2 is not 1. -/
theorem IsValidKingdomObject_castle_witness :
    (castleTile 2).isFog 1 = false ∧ strictGame.isGroundObject 163 = true ∧
      (castleTile 2).GetObjectFalse = strictGame.OBJ_CASTLE ∧
      (((strictGame.ExtUnionsAllowCastleVisiting = false
            ∧ strictGame.isFriends 1 (castleTile 2).QuantityColor = true) →
          (IsValidKingdomObject strictGame (castleTile 2) 163 1 = true
            ↔ (castleTile 2).QuantityColor = 1)) ∧
        ((strictGame.ExtUnionsAllowCastleVisiting = true
            ∨ strictGame.isFriends 1 (castleTile 2).QuantityColor = false) →
          IsValidKingdomObject strictGame (castleTile 2) 163 1 = true)) :=
  ⟨rfl, by decide, rfl, IsValidKingdomObject_castle strictGame (castleTile 2) 163 1 rfl (by decide) rfl⟩

/-- C5, as the spec states it, fails: a hero of colour 1 stands in a castle
of colour 1, colour 1 is a friend of itself, and the classifier asked
about the hero object id for kingdom colour 1 accepts the tile (the castle
rule of lines 36-43 answers before the hero is looked at). -/
theorem IsValidKingdomObject_friendly_guest_accepted :
    (castleTile 1).GetHeroes = some { GetColor := 1 } ∧
      sampleGame.isFriends 1 1 = true ∧
      IsValidKingdomObject sampleGame (castleTile 1) sampleGame.OBJ_HEROES 1 = true := by
  decide

/-- C5, amended: on a tile whose base object is not a castle and on which a
hero of a colour friendly to `F` stands, the classifier asked about the
hero object id answers false, whatever the object under the hero. -/
theorem IsValidKingdomObject_friendly_hero (g : Game) (tile : Tiles) (hero : Heroes) (F : Int)
    (hhero : tile.GetHeroes = some hero) (hfriend : g.isFriends F hero.GetColor = true)
    (hbase : tile.GetObjectFalse ≠ g.OBJ_CASTLE) :
    IsValidKingdomObject g tile g.OBJ_HEROES F = false := by
  unfold IsValidKingdomObject
  by_cases h1 : (tile.isFog F || !g.isGroundObject g.OBJ_HEROES) = true
  · simp [h1]
  · simp [h1, hbase, hhero, hfriend]

/-- The amended C5 for a hero of the allied colour 2 standing on a mine
that kingdom colour 1 would accept on its own. -/
theorem IsValidKingdomObject_friendly_hero_witness :
    (mineTile 4 2).GetHeroes = some { GetColor := 2 } ∧
      sampleGame.isFriends 1 2 = true ∧
      (mineTile 4 2).GetObjectFalse ≠ sampleGame.OBJ_CASTLE ∧
      IsValidKingdomObject sampleGame (mineTile 4 2) 151 1 = true ∧
      IsValidKingdomObject sampleGame (mineTile 4 2) sampleGame.OBJ_HEROES 1 = false :=
  ⟨rfl, by decide, by decide, by decide,
    IsValidKingdomObject_friendly_hero sampleGame (mineTile 4 2) { GetColor := 2 } 1 rfl
      (by decide) (by decide)⟩

/-- C6, as the spec states it, fails: the castle id is a capture object, the
castle tile is owned by kingdom colour 1, colour 1 is a friend of itself,
and the classifier accepts the kingdom's own castle. -/
theorem IsValidKingdomObject_own_castle_accepted :
    sampleGame.isCaptureObject sampleGame.OBJ_CASTLE = true ∧
      (castleTile 1).QuantityColor = 1 ∧
      sampleGame.isFriends 1 1 = true ∧
      IsValidKingdomObject sampleGame (castleTile 1) sampleGame.OBJ_CASTLE 1 = true := by
  decide

/-- C6, amended: on a tile whose base object is not a castle, for a capture
object id other than the hero object id, a tile whose recorded owner is
the kingdom colour `F` itself is rejected when `F` is a friend of itself. -/
theorem IsValidKingdomObject_own_capture_object (g : Game) (tile : Tiles) (objectID F : Int)
    (hcapture : g.isCaptureObject objectID = true) (howner : tile.QuantityColor = F)
    (hself : g.isFriends F F = true)
    (hbase : tile.GetObjectFalse ≠ g.OBJ_CASTLE) (hid : objectID ≠ g.OBJ_HEROES) :
    IsValidKingdomObject g tile objectID F = false := by
  unfold IsValidKingdomObject
  by_cases h1 : (tile.isFog F || !g.isGroundObject objectID) = true
  · simp [h1]
  · simp [h1, hbase, hid, hcapture, howner, hself]

/-- The amended C6 on a mine owned by kingdom colour 1. -/
theorem IsValidKingdomObject_own_capture_object_witness :
    sampleGame.isCaptureObject 151 = true ∧
      ({ mineTile 1 4 with GetHeroes := none } : Tiles).QuantityColor = 1 ∧
      sampleGame.isFriends 1 1 = true ∧
      ({ mineTile 1 4 with GetHeroes := none } : Tiles).GetObjectFalse ≠ sampleGame.OBJ_CASTLE ∧
      (151 : Int) ≠ sampleGame.OBJ_HEROES ∧
      IsValidKingdomObject sampleGame { mineTile 1 4 with GetHeroes := none } 151 1 = false :=
  ⟨by decide, rfl, by decide, by decide, by decide,
    IsValidKingdomObject_own_capture_object sampleGame { mineTile 1 4 with GetHeroes := none } 151 1
      (by decide) rfl (by decide) (by decide) (by decide)⟩

/-- C7, as the spec states it, fails: the resource id is a quantity object,
the castle tile has no valid quantity, and the classifier asked about the
resource id on that tile accepts it (the castle rule of lines 36-43
answers before the quantity is looked at). -/
theorem IsValidKingdomObject_invalid_quantity_accepted :
    sampleGame.isQuantityObject 155 = true ∧
      (castleTile 1).QuantityIsValid = false ∧
      IsValidKingdomObject sampleGame (castleTile 1) 155 1 = true := by
  decide

/-- C7, amended: on a tile whose base object is not a castle, for a quantity
object id that is neither the hero object id nor a capture object, a tile
whose quantity is not valid is rejected, whatever its owner colour. -/
theorem IsValidKingdomObject_invalid_quantity (g : Game) (tile : Tiles) (objectID F : Int)
    (hquantity : g.isQuantityObject objectID = true) (hinvalid : tile.QuantityIsValid = false)
    (hbase : tile.GetObjectFalse ≠ g.OBJ_CASTLE) (hid : objectID ≠ g.OBJ_HEROES)
    (hcapture : g.isCaptureObject objectID = false) :
    IsValidKingdomObject g tile objectID F = false := by
  unfold IsValidKingdomObject
  by_cases h1 : (tile.isFog F || !g.isGroundObject objectID) = true
  · simp [h1]
  · simp [h1, hbase, hid, hcapture, hquantity, hinvalid]

/-- The amended C7 on an exhausted resource pile. -/
theorem IsValidKingdomObject_invalid_quantity_witness :
    sampleGame.isQuantityObject 155 = true ∧ emptyPileTile.QuantityIsValid = false ∧
      emptyPileTile.GetObjectFalse ≠ sampleGame.OBJ_CASTLE ∧
      (155 : Int) ≠ sampleGame.OBJ_HEROES ∧
      sampleGame.isCaptureObject 155 = false ∧
      IsValidKingdomObject sampleGame emptyPileTile 155 1 = false :=
  ⟨by decide, rfl, by decide, by decide, by decide,
    IsValidKingdomObject_invalid_quantity sampleGame emptyPileTile 155 1
      (by decide) rfl (by decide) (by decide) (by decide)⟩

/-! ## The sort -/

theorem slotLE_refl (strength : HeroId → Nat) (x : Option HeroId) : slotLE strength x x := by
  cases x <;> simp [slotLE]

theorem slotLE_trans (strength : HeroId → Nat) {x y z : Option HeroId}
    (hxy : slotLE strength x y) (hyz : slotLE strength y z) : slotLE strength x z := by
  cases x <;> cases y <;> cases z <;> simp_all [slotLE]
  exact le_trans hxy hyz

theorem slotLE_of_heroCompare (strength : HeroId → Nat) {x y : Option HeroId}
    (h : heroCompare strength x y = true) : slotLE strength x y := by
  cases x <;> cases y <;> simp_all [slotLE, heroCompare]
  exact le_of_lt h

theorem slotLE_of_not_heroCompare (strength : HeroId → Nat) {x y : Option HeroId}
    (h : heroCompare strength x y = false) : slotLE strength y x := by
  cases x <;> cases y <;> simp_all [slotLE, heroCompare]

/-- The inner loop keeps the range sorted and only moves elements, and it
stays inside the range when some element does not compare greater than
the inserted one. -/
theorem unguardedLinearInsert_sorted (strength : HeroId → Nat) (val : Option HeroId) :
    ∀ l : List (Option HeroId),
      (∃ x ∈ l, heroCompare strength val x = false) →
      l.Pairwise (fun a b => slotLE strength b a) →
      ∃ l', unguardedLinearInsert (heroCompare strength) val l = some l' ∧
        l'.Perm (val :: l) ∧ l'.Pairwise (fun a b => slotLE strength b a) := by
  intro l
  induction l with
  | nil => rintro ⟨x, hx, _⟩; simp at hx
  | cons next before ih =>
    intro hstop hsorted
    rw [List.pairwise_cons] at hsorted
    obtain ⟨hnext, hbefore⟩ := hsorted
    by_cases hc : heroCompare strength val next = true
    · have hstop' : ∃ x ∈ before, heroCompare strength val x = false := by
        obtain ⟨x, hx, hxc⟩ := hstop
        rcases List.mem_cons.mp hx with rfl | hx'
        · rw [hc] at hxc; cases hxc
        · exact ⟨x, hx', hxc⟩
      obtain ⟨l', hl', hperm, hpw⟩ := ih hstop' hbefore
      refine ⟨next :: l', ?_, ?_, ?_⟩
      · simp [unguardedLinearInsert, hc, hl']
      · exact (List.Perm.cons next hperm).trans (List.Perm.swap val next before)
      · rw [List.pairwise_cons]
        refine ⟨?_, hpw⟩
        intro y hy
        rcases List.mem_cons.mp (hperm.subset hy) with rfl | hy'
        · exact slotLE_of_heroCompare strength hc
        · exact hnext y hy'
    · have hc' : heroCompare strength val next = false := by
        cases h : heroCompare strength val next
        · rfl
        · exact absurd h hc
      refine ⟨val :: next :: before, ?_, List.Perm.refl _, ?_⟩
      · simp [unguardedLinearInsert, hc']
      · rw [List.pairwise_cons]
        refine ⟨?_, List.pairwise_cons.mpr ⟨hnext, hbefore⟩⟩
        intro y hy
        rcases List.mem_cons.mp hy with rfl | hy'
        · exact slotLE_of_not_heroCompare strength hc'
        · exact slotLE_trans strength (hnext y hy') (slotLE_of_not_heroCompare strength hc')

/-- One round of the insertion sort keeps the range sorted, only moves
elements and stays inside the range. -/
theorem insertionStep_sorted (strength : HeroId → Nat) (val : Option HeroId)
    (acc : List (Option HeroId)) (hsorted : acc.Pairwise (fun a b => slotLE strength b a)) :
    ∃ acc', insertionStep (heroCompare strength) acc val = some acc' ∧
      acc'.Perm (val :: acc) ∧ acc'.Pairwise (fun a b => slotLE strength b a) := by
  unfold insertionStep
  cases hlast : acc.getLast? with
  | none =>
    have hnil : acc = [] := by simpa using hlast
    subst hnil
    exact ⟨[val], rfl, List.Perm.refl _, List.pairwise_singleton _ _⟩
  | some first =>
    obtain ⟨front, hfront⟩ := List.getLast?_eq_some_iff.mp hlast
    by_cases hc : heroCompare strength val first = true
    · refine ⟨acc ++ [val], by simp [hc], List.perm_append_singleton val acc, ?_⟩
      rw [List.pairwise_append]
      refine ⟨hsorted, List.pairwise_singleton _ _, ?_⟩
      intro a ha b hb
      rw [List.mem_singleton] at hb
      subst hb
      have hvf : slotLE strength b first := slotLE_of_heroCompare strength hc
      rw [hfront, List.pairwise_append] at hsorted
      rw [hfront, List.mem_append] at ha
      rcases ha with ha | ha
      · exact slotLE_trans strength hvf (hsorted.2.2 a ha first (List.mem_singleton.mpr rfl))
      · rw [List.mem_singleton] at ha
        subst ha
        exact hvf
    · have hc' : heroCompare strength val first = false := by
        cases h : heroCompare strength val first
        · rfl
        · exact absurd h hc
      have hmem : first ∈ acc := by rw [hfront]; simp
      simpa [hc'] using unguardedLinearInsert_sorted strength val acc ⟨first, hmem, hc'⟩ hsorted

/-- The rounds of the insertion sort, from any sorted start. -/
theorem foldlM_insertionStep_sorted (strength : HeroId → Nat) :
    ∀ (rest acc : List (Option HeroId)), acc.Pairwise (fun a b => slotLE strength b a) →
      ∃ acc', rest.foldlM (insertionStep (heroCompare strength)) acc = some acc' ∧
        acc'.Perm (rest ++ acc) ∧ acc'.Pairwise (fun a b => slotLE strength b a) := by
  intro rest
  induction rest with
  | nil => intro acc hacc; exact ⟨acc, rfl, List.Perm.refl _, hacc⟩
  | cons val rest ih =>
    intro acc hacc
    obtain ⟨acc1, h1, hperm1, hsorted1⟩ := insertionStep_sorted strength val acc hacc
    obtain ⟨acc2, h2, hperm2, hsorted2⟩ := ih acc1 hsorted1
    refine ⟨acc2, ?_, ?_, hsorted2⟩
    · rw [List.foldlM_cons, h1]
      exact h2
    · refine hperm2.trans ?_
      refine (List.Perm.append_left rest hperm1).trans ?_
      exact List.perm_middle

/-- With the comparator of the hero list, the insertion sort stays inside
the vector and returns a permutation ordered by `slotLE`. -/
theorem insertionSort_heroCompare (strength : HeroId → Nat) (l : List (Option HeroId)) :
    ∃ sorted, insertionSort (heroCompare strength) l = some sorted ∧
      sorted.Perm l ∧ sorted.Pairwise (slotLE strength) := by
  cases l with
  | nil => exact ⟨[], rfl, List.Perm.refl _, List.Pairwise.nil⟩
  | cons first rest =>
    obtain ⟨acc, hacc, hperm, hsorted⟩ :=
      foldlM_insertionStep_sorted strength rest [first] (List.pairwise_singleton _ _)
    refine ⟨acc.reverse, by simp [insertionSort, hacc], ?_, List.pairwise_reverse.mpr hsorted⟩
    refine (List.reverse_perm acc).trans (hperm.trans ?_)
    exact List.perm_append_singleton first rest

/-- On a range of at most 16 elements `__introsort_loop` does nothing. -/
theorem introsortLoop_short {α : Type} (comp : α → α → Bool) (depthLimit : Nat) (a : List α)
    (first last : Nat) (h : last - first ≤ 16) :
    introsortLoop comp depthLimit a first last = some a := by
  have hn : ¬ last - first > 16 := Nat.not_lt.mpr h
  cases depthLimit <;> simp [introsortLoop, hn]

/-- On a vector of at most 16 elements `std::sort` is the insertion sort. -/
theorem stdSort_short {α : Type} (comp : α → α → Bool) (a : List α) (h : a.length ≤ 16) :
    stdSort comp a = insertionSort comp a := by
  unfold stdSort
  by_cases h0 : a.length = 0
  · have hnil : a = [] := List.length_eq_zero.mp h0
    subst hnil
    rfl
  · have hn : ¬ a.length > 16 := Nat.not_lt.mpr h
    rw [introsortLoop_short comp _ a 0 a.length (by simpa using h)]
    simp [h0, finalInsertionSort, hn]

/-- With the comparator of the hero list, on a vector of at most 16 slots
`stdSort` stays inside the vector and returns a permutation ordered by
`slotLE`. -/
theorem stdSort_heroCompare (strength : HeroId → Nat) (l : List (Option HeroId))
    (hshort : l.length ≤ 16) :
    ∃ sorted, stdSort (heroCompare strength) l = some sorted ∧
      sorted.Perm l ∧ sorted.Pairwise (slotLE strength) := by
  rw [stdSort_short _ l hshort]
  exact insertionSort_heroCompare strength l

/-- A list ordered by `slotLE` is a run of present heroes of non-decreasing
strength followed by absent slots only. -/
theorem present_then_absent_of_pairwise (strength : HeroId → Nat) :
    ∀ l : List (Option HeroId), l.Pairwise (slotLE strength) →
      ∃ (present : List HeroId) (absent : Nat),
        l = present.map some ++ List.replicate absent none ∧
          present.Pairwise (fun a b => strength a ≤ strength b) := by
  intro l
  induction l with
  | nil => intro _; exact ⟨[], 0, rfl, List.Pairwise.nil⟩
  | cons x rest ih =>
    intro h
    rw [List.pairwise_cons] at h
    obtain ⟨hx, hrest⟩ := h
    obtain ⟨present, absent, hl, hpw⟩ := ih hrest
    cases x with
    | some a =>
      refine ⟨a :: present, absent, by simp [hl], ?_⟩
      rw [List.pairwise_cons]
      refine ⟨?_, hpw⟩
      intro b hb
      have hmem : some b ∈ rest := by
        rw [hl]
        exact List.mem_append_left _ (List.mem_map_of_mem some hb)
      simpa [slotLE] using hx (some b) hmem
    | none =>
      cases present with
      | nil =>
        refine ⟨[], absent + 1, ?_, List.Pairwise.nil⟩
        simp [hl, List.replicate_succ]
      | cons b tail =>
        have hmem : some b ∈ rest := by rw [hl]; simp
        exact absurd (hx (some b) hmem) (by simp [slotLE])

/-! ## The phases of the turn -/

/-- The sorted copy of a hero list of at most 16 slots is built, and it is a
permutation of the list ordered by `slotLE`. -/
theorem sortedHeroList_sorted {σ : Type} (c : Collaborators σ) (s : σ)
    (hshort : (c.GetHeroes s).length ≤ 16) :
    ∃ sorted, sortedHeroList c s = some sorted ∧
      sorted.Perm (c.GetHeroes s) ∧ sorted.Pairwise (slotLE (c.GetStrength s)) :=
  stdSort_heroCompare (c.GetStrength s) (c.GetHeroes s) hshort

theorem movePass1_some {σ : Type} (c : Collaborators σ) (size : Nat) (hsize : size ≠ 0) :
    ∀ (l : List (Option HeroId)) (r : Run σ) (n : Nat),
      ∃ res, movePass1 c size l r n = some res ∧ res.1.ai = r.ai := by
  intro l
  induction l with
  | nil => intro r n; exact ⟨(r, n), rfl, rfl⟩
  | cons x rest ih =>
    intro r n
    cases x with
    | none => simpa [movePass1] using ih r n
    | some hero =>
      by_cases hm : c.Modes_HERO_MOVED (c.HeroTurn hero r.st) hero = true
      · obtain ⟨res, hres, hai⟩ := ih
          (({ r with st := c.HeroTurn hero r.st, calls := r.calls ++ [Call.HeroTurn hero] } : Run σ).log
            (Call.RedrawTurnProgress (2 + 7 * (n + 1) / size))) (n + 1)
        exact ⟨res, by simp [movePass1, hm, turnProgress, hsize, hres], hai⟩
      · obtain ⟨res, hres, hai⟩ := ih
          ({ r with st := c.HeroTurn hero r.st, calls := r.calls ++ [Call.HeroTurn hero] } : Run σ) n
        exact ⟨res, by simp [movePass1, hm, hres], hai⟩

theorem movePass2_some {σ : Type} (c : Collaborators σ) (size : Nat) (hsize : size ≠ 0) :
    ∀ (l : List (Option HeroId)) (r : Run σ) (n : Nat),
      ∃ res, movePass2 c size l r n = some res ∧ res.1.ai = r.ai := by
  intro l
  induction l with
  | nil => intro r n; exact ⟨(r, n), rfl, rfl⟩
  | cons x rest ih =>
    intro r n
    cases x with
    | none => simpa [movePass2] using ih r n
    | some hero =>
      by_cases hm : c.Modes_HERO_MOVED r.st hero = true
      · obtain ⟨res, hres, hai⟩ := ih r n
        exact ⟨res, by simp [movePass2, hm, hres], hai⟩
      · obtain ⟨res, hres, hai⟩ := ih
          (({ r with st := c.HeroTurn hero r.st, calls := r.calls ++ [Call.HeroTurn hero] } : Run σ).log
            (Call.RedrawTurnProgress (2 + 7 * (n + 1) / size))) (n + 1)
        exact ⟨res, by simp [movePass2, hm, turnProgress, hsize, hres], hai⟩

/-- Both movement passes run to their end on the whole sorted copy: the
division by its size is only met when it is not empty. -/
theorem movePasses_some {σ : Type} (c : Collaborators σ) (sorted : List (Option HeroId))
    (r : Run σ) :
    ∃ r4 moved1 r5 moved2,
      movePass1 c sorted.length sorted r 0 = some (r4, moved1) ∧
        movePass2 c sorted.length sorted r4 moved1 = some (r5, moved2) ∧ r5.ai = r.ai := by
  cases sorted with
  | nil => exact ⟨r, 0, r, 0, rfl, rfl, rfl⟩
  | cons x rest =>
    have hsize : (x :: rest).length ≠ 0 := by simp
    obtain ⟨⟨r4, moved1⟩, h1, hai1⟩ := movePass1_some c _ hsize (x :: rest) r 0
    obtain ⟨⟨r5, moved2⟩, h2, hai2⟩ := movePass2_some c _ hsize (x :: rest) r4 moved1
    exact ⟨r4, moved1, r5, moved2, h1, h2, hai2.trans hai1⟩

theorem castlesPass_ai {σ : Type} (c : Collaborators σ) :
    ∀ (l : List (Option CastleId)) (r : Run σ), (castlesPass c l r).ai = r.ai := by
  intro l
  induction l with
  | nil => intro r; rfl
  | cons x rest ih =>
    intro r
    cases x with
    | none => simpa [castlesPass] using ih r
    | some castle => simpa [castlesPass] using ih _

/-- The turn from the sorted copy on, phase by phase: for every copy handed
to them the two movement passes run to their end (the division by the
size of the copy is only met when the copy is not empty), and the castle
pass follows. -/
theorem turnAfterSort_phases {σ : Type} (c : Collaborators σ) (sorted : List (Option HeroId))
    (r2 : Run σ) :
    ∃ r4 moved1 r5 moved2,
      movePass1 c sorted.length sorted (r2.log (Call.RedrawTurnProgress 2)) 0 = some (r4, moved1) ∧
        movePass2 c sorted.length sorted r4 moved1 = some (r5, moved2) ∧
        r5.ai = r2.ai ∧
        turnAfterSort c sorted r2
          = some (castlesPass c (c.GetCastles r5.st) (r5.log (Call.RedrawTurnProgress 9))) := by
  obtain ⟨r4, moved1, r5, moved2, h1, h2, hai⟩ :=
    movePasses_some c sorted (r2.log (Call.RedrawTurnProgress 2))
  refine ⟨r4, moved1, r5, moved2, h1, h2, hai, ?_⟩
  unfold turnAfterSort
  simp only [h1, h2]
  rfl

/-! ## The scan -/

theorem IsValidKingdomObject_not_fog (g : Game) (tile : Tiles) (objectID kingdomColor : Int)
    (h : IsValidKingdomObject g tile objectID kingdomColor = true) :
    tile.isFog kingdomColor = false := by
  cases hfog : tile.isFog kingdomColor
  · rfl
  · simp [IsValidKingdomObject, hfog] at h

/-- The loop of the scan over any list of indices, from any working set. -/
theorem scan_foldl {σ : Type} (g : Game) (c : Collaborators σ) (s : σ) (color : Int) (ai : Normal) :
    ∀ (idxs : List Nat) (found : List (Nat × Int)),
      idxs.foldl
          (fun ai idx =>
            let tile := c.GetTiles s idx
            let objectID := tile.GetObject
            if !IsValidKingdomObject g tile objectID color then ai
            else { ai with mapObjects := ai.mapObjects ++ [(idx, objectID)] })
          { ai with mapObjects := found }
        = { ai with
            mapObjects := found ++
              (idxs.filter (fun idx =>
                  IsValidKingdomObject g (c.GetTiles s idx) (c.GetTiles s idx).GetObject color)).map
                (fun idx => (idx, (c.GetTiles s idx).GetObject)) } := by
  intro idxs
  induction idxs with
  | nil => intro found; simp
  | cons idx rest ih =>
    intro found
    rw [List.foldl_cons]
    by_cases hv : IsValidKingdomObject g (c.GetTiles s idx) (c.GetTiles s idx).GetObject color = true
    · simp only [hv, Bool.not_true, Bool.false_eq_true, if_false]
      rw [ih]
      simp [List.filter_cons, hv]
    · have hv' : IsValidKingdomObject g (c.GetTiles s idx) (c.GetTiles s idx).GetObject color
          = false := by
        simpa using hv
      simp only [hv', Bool.not_false, if_true]
      rw [ih]
      simp [List.filter_cons, hv']

theorem scanMap_eq {σ : Type} (g : Game) (c : Collaborators σ) (s : σ) (color : Int) (mapSize : Nat)
    (ai : Normal) :
    scanMap g c s color mapSize ai
      = { ai with
          mapObjects :=
            ((List.range mapSize).filter (fun idx =>
                IsValidKingdomObject g (c.GetTiles s idx) (c.GetTiles s idx).GetObject color)).map
              (fun idx => (idx, (c.GetTiles s idx).GetObject)) } := by
  unfold scanMap
  rw [scan_foldl]
  simp

/-! ## The turn -/

/-- C8: when the kingdom has lost or its colour is `Color::NONE`, the turn is
the call of `LossPostActions` and nothing else: the working set of the AI
is returned as it was and no recruitment, hero turn or castle turn is
among the calls. -/
theorem KingdomTurn_loss {σ : Type} (g : Game) (c : Collaborators σ) (ai : Normal) (s : σ)
    (h : c.isLoss s = true ∨ c.GetColor s = g.NONE) :
    KingdomTurn g c ai s
      = some { st := c.LossPostActions s, ai := ai, calls := [Call.LossPostActions] } := by
  unfold KingdomTurn
  rcases h with h | h <;> simp [h]

/-- C8 on the sample kingdom after its loss: the working set left from the
earlier turn is untouched. -/
theorem KingdomTurn_loss_witness :
    (sampleCollaborators.isLoss lostKingdom = true
        ∨ sampleCollaborators.GetColor lostKingdom = sampleGame.NONE) ∧
      KingdomTurn sampleGame sampleCollaborators sampleAI lostKingdom
        = some { st := sampleCollaborators.LossPostActions lostKingdom, ai := sampleAI,
                 calls := [Call.LossPostActions] } :=
  ⟨Or.inl rfl, KingdomTurn_loss sampleGame sampleCollaborators sampleAI lostKingdom (Or.inl rfl)⟩

/-- C9: the working set the scan phase of the turn produces is the list of
(index, primary object id) over the tile indices `0 .. w * h - 1` in
ascending order that `IsValidKingdomObject` accepts for the kingdom
colour. Its indices increase strictly, none of its tiles is fogged, it is
the same whatever working set the AI object held before, and the scan
leaves the game as it was. -/
theorem scanPhase_mapObjects {σ : Type} (g : Game) (c : Collaborators σ) (ai : Normal) (s : σ) :
    (scanPhase g c ai s).ai.mapObjects
        = ((List.range (c.w s * c.h s)).filter (fun idx =>
              IsValidKingdomObject g (c.GetTiles s idx) (c.GetTiles s idx).GetObject
                (c.GetColor s))).map
            (fun idx => (idx, (c.GetTiles s idx).GetObject)) ∧
      (scanPhase g c ai s).ai.mapObjects.Pairwise (fun p q => p.1 < q.1) ∧
      (∀ p ∈ (scanPhase g c ai s).ai.mapObjects,
        (c.GetTiles s p.1).isFog (c.GetColor s) = false) ∧
      (∀ ai' : Normal, (scanPhase g c ai' s).ai.mapObjects = (scanPhase g c ai s).ai.mapObjects) ∧
      (scanPhase g c ai s).st = s := by
  have key : ∀ a : Normal, (scanPhase g c a s).ai.mapObjects
      = ((List.range (c.w s * c.h s)).filter (fun idx =>
            IsValidKingdomObject g (c.GetTiles s idx) (c.GetTiles s idx).GetObject
              (c.GetColor s))).map
          (fun idx => (idx, (c.GetTiles s idx).GetObject)) := by
    intro a
    simp [scanPhase, Run.log, scanMap_eq]
  refine ⟨key ai, ?_, ?_, ?_, rfl⟩
  · rw [key ai, List.pairwise_map]
    exact (List.pairwise_lt_range _).filter _
  · intro p hp
    rw [key ai, List.mem_map] at hp
    obtain ⟨idx, hidx, rfl⟩ := hp
    exact IsValidKingdomObject_not_fog g _ _ _ (List.mem_filter.mp hidx).2
  · intro ai'
    rw [key ai', key ai]

/-- C9 on the sample kingdom: of the six tiles the castle on tile 0 and the
hostile hero on tile 2 are kept, the fogged mine, the exhausted pile and
the open ground are not, and the working set left from an earlier turn is
gone. -/
theorem scanPhase_mapObjects_witness :
    sampleAI.mapObjects = [(5, 151), (1, 155)] ∧
      (scanPhase sampleGame sampleCollaborators sampleAI sampleKingdom).ai.mapObjects
        = [(0, 183), (2, 183)] ∧
      ((scanPhase sampleGame sampleCollaborators sampleAI sampleKingdom).ai.mapObjects
          = ((List.range (sampleCollaborators.w sampleKingdom * sampleCollaborators.h sampleKingdom)).filter
              (fun idx =>
                IsValidKingdomObject sampleGame (sampleCollaborators.GetTiles sampleKingdom idx)
                  (sampleCollaborators.GetTiles sampleKingdom idx).GetObject
                  (sampleCollaborators.GetColor sampleKingdom))).map
              (fun idx => (idx, (sampleCollaborators.GetTiles sampleKingdom idx).GetObject)) ∧
        (scanPhase sampleGame sampleCollaborators sampleAI sampleKingdom).ai.mapObjects.Pairwise
          (fun p q => p.1 < q.1) ∧
        (∀ p ∈ (scanPhase sampleGame sampleCollaborators sampleAI sampleKingdom).ai.mapObjects,
          (sampleCollaborators.GetTiles sampleKingdom p.1).isFog
            (sampleCollaborators.GetColor sampleKingdom) = false) ∧
        (∀ ai' : Normal,
          (scanPhase sampleGame sampleCollaborators ai' sampleKingdom).ai.mapObjects
            = (scanPhase sampleGame sampleCollaborators sampleAI sampleKingdom).ai.mapObjects) ∧
        (scanPhase sampleGame sampleCollaborators sampleAI sampleKingdom).st = sampleKingdom) :=
  ⟨rfl, by decide, scanPhase_mapObjects sampleGame sampleCollaborators sampleAI sampleKingdom⟩

/-- The sorted copy of a hero list of at most 16 slots: a permutation of the
list, made of the present heroes in non-decreasing army strength followed
by the absent slots only. -/
theorem sortedHeroList_short_schedule {σ : Type} (c : Collaborators σ) (s : σ)
    (hshort : (c.GetHeroes s).length ≤ 16) :
    ∃ sorted, sortedHeroList c s = some sorted ∧
      sorted.Perm (c.GetHeroes s) ∧
      ∃ (present : List HeroId) (absent : Nat),
        sorted = present.map some ++ List.replicate absent none ∧
          present.Pairwise (fun a b => c.GetStrength s a ≤ c.GetStrength s b) := by
  obtain ⟨sorted, hsorted, hperm, hpw⟩ := sortedHeroList_sorted c s hshort
  exact ⟨sorted, hsorted, hperm, present_then_absent_of_pairwise _ sorted hpw⟩

/-- C10 fails on the code for a hero list of 17 absent slots: the kingdom has
not lost, the comparator answers true for two absent slots, and
`std::sort`, which partitions a range of more than 16 elements, scans
`while ( comp( first, pivot ) ) ++first` past the end of the vector, which
is undefined behaviour: no sorted copy is built and the turn has no
result. The example of the claim, strengths 5, 80, 30 and an absent slot,
is scheduled as 5, 30, 80, absent. -/
theorem sortedHeroList_leaves_vector :
    sampleCollaborators.isLoss crowdedKingdom = false ∧
      sampleCollaborators.GetColor crowdedKingdom ≠ sampleGame.NONE ∧
      sampleCollaborators.GetHeroes crowdedKingdom = List.replicate 17 none ∧
      heroCompare (sampleCollaborators.GetStrength crowdedKingdom) none none = true ∧
      partitionUp (heroCompare (sampleCollaborators.GetStrength crowdedKingdom))
          (List.replicate 17 none) 0 18 1 = none ∧
      sortedHeroList sampleCollaborators crowdedKingdom = none ∧
      (KingdomTurn sampleGame sampleCollaborators sampleAI crowdedKingdom).isNone = true ∧
      (sampleCollaborators.GetHeroes sampleKingdom).map
          (Option.map (sampleCollaborators.GetStrength sampleKingdom))
        = [some 5, some 80, some 30, none] ∧
      (sortedHeroList sampleCollaborators sampleKingdom).map
          (List.map (Option.map (sampleCollaborators.GetStrength sampleKingdom)))
        = some [some 5, some 30, some 80, none] := by
  decide

/-! ## The calls of the phases -/

/-- A run of movement calls holds no castle turn, no recruitment and no
reinforcement. -/
theorem move_calls_only (extra : List Call) (h : ∀ call ∈ extra, call.isMove = true) :
    castleTurns extra = [] ∧ recruitAttempts extra = [] ∧ reinforcements extra = [] := by
  induction extra with
  | nil => exact ⟨rfl, rfl, rfl⟩
  | cons call rest ih =>
    obtain ⟨h1, h2, h3⟩ := ih (fun x hx => h x (List.mem_cons_of_mem _ hx))
    have hcall := h call (List.mem_cons_self _ _)
    cases call <;>
      simp_all [castleTurns, recruitAttempts, reinforcements, Call.isMove, List.filterMap_cons]

/-- The first movement pass, when it runs to its end: the calls it adds are
movement calls, the hero turns are those of the present heroes in the
order of the list, the counter advances by one for every hero that carries
MOVED after its turn, and the progress is redrawn with the successive
values of the counter. -/
theorem movePass1_trace {σ : Type} (c : Collaborators σ) (size : Nat) :
    ∀ (l : List (Option HeroId)) (r : Run σ) (n : Nat) (res : Run σ × Nat),
      movePass1 c size l r n = some res →
      ∃ extra, res.1.calls = r.calls ++ extra ∧
        (∀ call ∈ extra, call.isMove = true) ∧
        heroTurns extra = l.filterMap id ∧
        res.2 = n + (movedInPass1 c l r.st).length ∧
        progressValues extra
          = (List.range' (n + 1) (movedInPass1 c l r.st).length).map (fun k => 2 + 7 * k / size) ∧
        res.1.st = afterHeroTurns c (l.filterMap id) r.st := by
  intro l
  induction l with
  | nil =>
    intro r n res h
    simp only [movePass1, Option.some.injEq] at h
    subst h
    exact ⟨[], by simp, by simp, rfl, by simp [movedInPass1], by simp [movedInPass1, progressValues],
      rfl⟩
  | cons x rest ih =>
    intro r n res h
    cases x with
    | none =>
      simp only [movePass1] at h
      obtain ⟨extra, h1, h2, h3, h4, h5, h6⟩ := ih r n res h
      exact ⟨extra, h1, h2, by simpa using h3, by simpa [movedInPass1] using h4,
        by simpa [movedInPass1] using h5, by simpa using h6⟩
    | some hero =>
      by_cases hm : c.Modes_HERO_MOVED (c.HeroTurn hero r.st) hero = true
      · by_cases hsize : size = 0
        · simp [movePass1, hm, turnProgress, hsize] at h
        · simp only [movePass1, hm, turnProgress, hsize, if_true, if_false] at h
          obtain ⟨extra, h1, h2, h3, h4, h5, h6⟩ := ih _ _ res h
          refine ⟨Call.HeroTurn hero :: Call.RedrawTurnProgress (2 + 7 * (n + 1) / size) :: extra,
            ?_, ?_, ?_, ?_, ?_, ?_⟩
          · simpa [Run.log] using h1
          · intro call hcall
            rcases List.mem_cons.mp hcall with rfl | hcall
            · rfl
            · rcases List.mem_cons.mp hcall with rfl | hcall
              · rfl
              · exact h2 call hcall
          · simp only [heroTurns, List.filterMap_cons] at h3 ⊢
            simpa using h3
          · simp only [movedInPass1, hm, if_true, List.length_cons]
            simp only [Run.log] at h4
            omega
          · simp only [movedInPass1, hm, if_true, List.length_cons, List.range'_succ, List.map_cons]
            simp only [progressValues, List.filterMap_cons] at h5 ⊢
            simpa [Run.log] using h5
          · simpa [Run.log, afterHeroTurns] using h6
      · simp only [movePass1, hm, Bool.false_eq_true, if_false] at h
        obtain ⟨extra, h1, h2, h3, h4, h5, h6⟩ := ih _ _ res h
        refine ⟨Call.HeroTurn hero :: extra, ?_, ?_, ?_, ?_, ?_, ?_⟩
        · simpa using h1
        · intro call hcall
          rcases List.mem_cons.mp hcall with rfl | hcall
          · rfl
          · exact h2 call hcall
        · simp only [heroTurns, List.filterMap_cons] at h3 ⊢
          simpa using h3
        · simpa [movedInPass1, hm] using h4
        · simp only [movedInPass1, hm, Bool.false_eq_true, if_false]
          simp only [progressValues, List.filterMap_cons] at h5 ⊢
          simpa using h5
        · simpa [afterHeroTurns] using h6

/-- The second movement pass, when it runs to its end: the calls it adds
are movement calls, the hero turns are those of `retrySchedule`, the
counter advances by one for every retried hero, and the progress is
redrawn with the successive values of the counter. -/
theorem movePass2_trace {σ : Type} (c : Collaborators σ) (size : Nat) :
    ∀ (l : List (Option HeroId)) (r : Run σ) (n : Nat) (res : Run σ × Nat),
      movePass2 c size l r n = some res →
      ∃ extra, res.1.calls = r.calls ++ extra ∧
        (∀ call ∈ extra, call.isMove = true) ∧
        heroTurns extra = retrySchedule c l r.st ∧
        res.2 = n + (retrySchedule c l r.st).length ∧
        progressValues extra
          = (List.range' (n + 1) (retrySchedule c l r.st).length).map (fun k => 2 + 7 * k / size) ∧
        res.1.st = afterHeroTurns c (retrySchedule c l r.st) r.st := by
  intro l
  induction l with
  | nil =>
    intro r n res h
    simp only [movePass2, Option.some.injEq] at h
    subst h
    exact ⟨[], by simp, by simp, rfl, by simp [retrySchedule],
      by simp [retrySchedule, progressValues], rfl⟩
  | cons x rest ih =>
    intro r n res h
    cases x with
    | none =>
      simp only [movePass2] at h
      obtain ⟨extra, h1, h2, h3, h4, h5, h6⟩ := ih r n res h
      exact ⟨extra, h1, h2, by simpa [retrySchedule] using h3, by simpa [retrySchedule] using h4,
        by simpa [retrySchedule] using h5, by simpa [retrySchedule] using h6⟩
    | some hero =>
      by_cases hm : c.Modes_HERO_MOVED r.st hero = true
      · simp only [movePass2, hm, Bool.not_true, Bool.false_eq_true, if_false] at h
        obtain ⟨extra, h1, h2, h3, h4, h5, h6⟩ := ih r n res h
        exact ⟨extra, h1, h2, by simpa [retrySchedule, hm] using h3,
          by simpa [retrySchedule, hm] using h4, by simpa [retrySchedule, hm] using h5,
          by simpa [retrySchedule, hm] using h6⟩
      · have hm' : c.Modes_HERO_MOVED r.st hero = false := by
          cases hv : c.Modes_HERO_MOVED r.st hero
          · rfl
          · exact absurd hv hm
        by_cases hsize : size = 0
        · simp [movePass2, hm', turnProgress, hsize] at h
        · simp only [movePass2, hm', turnProgress, hsize, Bool.not_false, if_true, if_false] at h
          obtain ⟨extra, h1, h2, h3, h4, h5, h6⟩ := ih _ _ res h
          refine ⟨Call.HeroTurn hero :: Call.RedrawTurnProgress (2 + 7 * (n + 1) / size) :: extra,
            ?_, ?_, ?_, ?_, ?_, ?_⟩
          · simpa [Run.log] using h1
          · intro call hcall
            rcases List.mem_cons.mp hcall with rfl | hcall
            · rfl
            · rcases List.mem_cons.mp hcall with rfl | hcall
              · rfl
              · exact h2 call hcall
          · simp only [retrySchedule, hm', Bool.false_eq_true, if_false]
            simp only [heroTurns, List.filterMap_cons] at h3 ⊢
            simpa [Run.log] using h3
          · simp only [retrySchedule, hm', Bool.false_eq_true, if_false, List.length_cons]
            simp only [Run.log] at h4
            omega
          · simp only [retrySchedule, hm', Bool.false_eq_true, if_false, List.length_cons,
              List.range'_succ, List.map_cons]
            simp only [progressValues, List.filterMap_cons] at h5 ⊢
            simpa [Run.log] using h5
          · simpa [Run.log, afterHeroTurns, retrySchedule, hm'] using h6

/-- The castle pass adds the turn of every present castle, in the order of
the collection, and nothing else. -/
theorem castlesPass_calls {σ : Type} (c : Collaborators σ) :
    ∀ (l : List (Option CastleId)) (r : Run σ),
      (castlesPass c l r).calls = r.calls ++ (l.filterMap id).map Call.CastleTurn := by
  intro l
  induction l with
  | nil => intro r; simp [castlesPass]
  | cons x rest ih =>
    intro r
    cases x with
    | none => simpa [castlesPass] using ih r
    | some castle => simp [castlesPass, ih]

theorem heroTurns_map_CastleTurn (l : List CastleId) : heroTurns (l.map Call.CastleTurn) = [] := by
  induction l with
  | nil => rfl
  | cons x rest ih => simp [heroTurns, List.filterMap_cons]

theorem castleTurns_map_CastleTurn (l : List CastleId) : castleTurns (l.map Call.CastleTurn) = l := by
  induction l with
  | nil => rfl
  | cons x rest ih =>
    simp only [castleTurns, List.map_cons, List.filterMap_cons] at ih ⊢
    rw [ih]

theorem progressValues_map_CastleTurn (l : List CastleId) :
    progressValues (l.map Call.CastleTurn) = [] := by
  induction l with
  | nil => rfl
  | cons x rest ih => simp [progressValues, List.filterMap_cons]

theorem recruitAttempts_map_CastleTurn (l : List CastleId) :
    recruitAttempts (l.map Call.CastleTurn) = [] := by
  induction l with
  | nil => rfl
  | cons x rest ih => simp [recruitAttempts, List.filterMap_cons]

theorem reinforcements_map_CastleTurn (l : List CastleId) :
    reinforcements (l.map Call.CastleTurn) = [] := by
  induction l with
  | nil => rfl
  | cons x rest ih => simp [reinforcements, List.filterMap_cons]

/-- The castle pass leaves the game that the turns of the present castles,
in the order of the collection, leave. -/
theorem castlesPass_st {σ : Type} (c : Collaborators σ) :
    ∀ (l : List (Option CastleId)) (r : Run σ),
      (castlesPass c l r).st = afterCastleTurns c (l.filterMap id) r.st := by
  intro l
  induction l with
  | nil => intro r; rfl
  | cons x rest ih =>
    intro r
    cases x with
    | none => simpa [castlesPass] using ih r
    | some castle => simp [castlesPass, ih, afterCastleTurns]

/-- The calls and the game of the turn from the sorted copy on, for every
copy handed to the passes: the redraw at 2, the calls of pass 1, the calls
of pass 2, the redraw at 9, and the turn of every present castle. -/
theorem turnAfterSort_trace {σ : Type} (c : Collaborators σ) (sorted : List (Option HeroId))
    (r2 : Run σ) :
    ∃ r extra1 extra2,
      turnAfterSort c sorted r2 = some r ∧
      r.calls = r2.calls ++ Call.RedrawTurnProgress 2 ::
        (extra1 ++ (extra2 ++ Call.RedrawTurnProgress 9 ::
          ((c.GetCastles (castlesStartOf c sorted r2.st)).filterMap id).map Call.CastleTurn)) ∧
      r.st = afterCastleTurns c ((c.GetCastles (castlesStartOf c sorted r2.st)).filterMap id)
          (castlesStartOf c sorted r2.st) ∧
      r.ai = r2.ai ∧
      (∀ call ∈ extra1, call.isMove = true) ∧
      (∀ call ∈ extra2, call.isMove = true) ∧
      heroTurns extra1 = sorted.filterMap id ∧
      heroTurns extra2 = retrySchedule c sorted (pass2StartOf c sorted r2.st) ∧
      progressValues extra1
        = (List.range' 1 (movedInPass1 c sorted r2.st).length).map
            (fun k => 2 + 7 * k / sorted.length) ∧
      progressValues extra2
        = (List.range' ((movedInPass1 c sorted r2.st).length + 1)
              (retrySchedule c sorted (pass2StartOf c sorted r2.st)).length).map
            (fun k => 2 + 7 * k / sorted.length) := by
  obtain ⟨r4, moved1, r5, moved2, h1, h2, hai, hturn⟩ := turnAfterSort_phases c sorted r2
  obtain ⟨extra1, a1, a2, a3, a4, a5, a6⟩ := movePass1_trace c _ _ _ _ _ h1
  obtain ⟨extra2, b1, b2, b3, b4, b5, b6⟩ := movePass2_trace c _ _ _ _ _ h2
  simp only [Run.log] at a1 a4 a5 a6
  simp only at a1 a4 a5 a6 b1 b3 b4 b5 b6
  have hp2 : r4.st = pass2StartOf c sorted r2.st := by rw [a6, pass2StartOf]
  have hcs : r5.st = castlesStartOf c sorted r2.st := by rw [b6, castlesStartOf, hp2]
  refine ⟨_, extra1, extra2, hturn, ?_, ?_, ?_, a2, b2, a3, ?_, ?_, ?_⟩
  · rw [castlesPass_calls]
    simp only [Run.log]
    rw [b1, a1, hcs]
    simp
  · rw [castlesPass_st]
    simp only [Run.log]
    rw [hcs]
  · rw [castlesPass_ai]
    exact hai
  · rw [← hp2]; exact b3
  · simpa using a5
  · rw [← hp2]
    rw [a4] at b5
    simpa using b5

/-! ## The recruitment step -/

/-- The three ways through the recruitment step: nothing is done (no first
castle, or the hero list has reached the limit, or the castle has a
guest); a recruitment is attempted and no reinforcement follows (no hero
came back, or the game is in its slow early days); a recruitment is
attempted and the hero that came back is reinforced. -/
theorem recruitStep_cases {σ : Type} (c : Collaborators σ) (slow : Bool) (limit : Nat) (r : Run σ) :
    (recruitStep c slow limit r = r ∧
        (c.GetFirstCastle r.st = none ∨ ¬ (c.GetHeroes r.st).length < limit ∨
          ∃ castle guest, c.GetFirstCastle r.st = some castle ∧ c.Guest r.st castle = some guest)) ∨
      (∃ castle, c.GetFirstCastle r.st = some castle ∧ (c.GetHeroes r.st).length < limit ∧
        c.Guest r.st castle = none ∧
        ((c.RecruitHero castle (c.GetHero1 r.st) r.st).1 = none ∨ slow = true) ∧
        recruitStep c slow limit r
          = { st := (c.RecruitHero castle (c.GetHero1 r.st) r.st).2, ai := r.ai,
              calls := r.calls ++ [Call.RecruitHero castle] }) ∨
      (∃ castle hero, c.GetFirstCastle r.st = some castle ∧ (c.GetHeroes r.st).length < limit ∧
        c.Guest r.st castle = none ∧
        (c.RecruitHero castle (c.GetHero1 r.st) r.st).1 = some hero ∧ slow = false ∧
        recruitStep c slow limit r
          = { st := c.ReinforceHeroInCastle hero castle
                      (c.RecruitHero castle (c.GetHero1 r.st) r.st).2,
              ai := r.ai,
              calls := r.calls ++ [Call.RecruitHero castle, Call.ReinforceHeroInCastle hero castle] }) := by
  unfold recruitStep
  cases hfirst : c.GetFirstCastle r.st with
  | none => exact Or.inl ⟨rfl, Or.inl rfl⟩
  | some castle =>
    by_cases hlim : (c.GetHeroes r.st).length < limit
    · cases hguest : c.Guest r.st castle with
      | some guest =>
        refine Or.inl ⟨by simp [hlim, hguest], Or.inr (Or.inr ⟨castle, guest, rfl, hguest⟩)⟩
      | none =>
        cases hrec : (c.RecruitHero castle (c.GetHero1 r.st) r.st).1 with
        | none =>
          refine Or.inr (Or.inl ⟨castle, rfl, hlim, hguest, Or.inl hrec, ?_⟩)
          simp [hlim, hrec, hguest]
        | some hero =>
          cases slow with
          | true =>
            refine Or.inr (Or.inl ⟨castle, rfl, hlim, hguest, Or.inr rfl, ?_⟩)
            simp [hlim, hrec, hguest]
          | false =>
            refine Or.inr (Or.inr ⟨castle, hero, rfl, hlim, hguest, hrec, rfl, ?_⟩)
            simp [hlim, hrec, hguest]
    · exact Or.inl ⟨by simp [hlim], Or.inr (Or.inl hlim)⟩

theorem scanPhase_st {σ : Type} (g : Game) (c : Collaborators σ) (ai : Normal) (s : σ) :
    (scanPhase g c ai s).st = s := rfl

theorem scanPhase_calls {σ : Type} (g : Game) (c : Collaborators σ) (ai : Normal) (s : σ) :
    (scanPhase g c ai s).calls
      = [Call.RedrawTurnProgress 0, Call.PlayMusic, Call.RedrawTurnProgress 1] := rfl

/-- The calls up to the end of the recruitment step hold no hero turn and
no castle turn, and the progress values 0 and 1. -/
theorem recruitPhase_calls {σ : Type} (g : Game) (c : Collaborators σ) (ai : Normal) (s : σ) :
    heroTurns (recruitPhase g c ai s).calls = [] ∧
      castleTurns (recruitPhase g c ai s).calls = [] ∧
      progressValues (recruitPhase g c ai s).calls = [0, 1] := by
  unfold recruitPhase
  rcases recruitStep_cases c (slowEarlyGame (c.CountDay s) (c.GetCastles s).length)
      (heroLimit g (c.w s) ai.personality (slowEarlyGame (c.CountDay s) (c.GetCastles s).length))
      (scanPhase g c ai s) with ⟨h, -⟩ | ⟨castle, -, -, -, -, h⟩ | ⟨castle, hero, -, -, -, -, -, h⟩ <;>
    rw [h] <;>
    simp [scanPhase_calls, heroTurns, castleTurns, progressValues]

/-- The hero turns, castle turns, recruitments, reinforcements and progress
values of the turn from the sorted copy on, for every copy handed to the
passes, and the game it leaves. -/
theorem turnAfterSort_projections {σ : Type} (c : Collaborators σ) (sorted : List (Option HeroId))
    (r2 : Run σ) :
    ∃ r, turnAfterSort c sorted r2 = some r ∧
      heroTurns r.calls
        = heroTurns r2.calls
            ++ (sorted.filterMap id ++ retrySchedule c sorted (pass2StartOf c sorted r2.st)) ∧
      castleTurns r.calls
        = castleTurns r2.calls ++ (c.GetCastles (castlesStartOf c sorted r2.st)).filterMap id ∧
      recruitAttempts r.calls = recruitAttempts r2.calls ∧
      reinforcements r.calls = reinforcements r2.calls ∧
      progressValues r.calls
        = progressValues r2.calls ++ 2 ::
            ((List.range' 1
                ((movedInPass1 c sorted r2.st).length
                  + (retrySchedule c sorted (pass2StartOf c sorted r2.st)).length)).map
              (fun k => 2 + 7 * k / sorted.length) ++ [9]) ∧
      r.st = afterCastleTurns c ((c.GetCastles (castlesStartOf c sorted r2.st)).filterMap id)
          (castlesStartOf c sorted r2.st) ∧
      r.ai = r2.ai ∧
      ∃ before,
        r.calls = before
            ++ ((c.GetCastles (castlesStartOf c sorted r2.st)).filterMap id).map Call.CastleTurn ∧
          castleTurns before = castleTurns r2.calls ∧ heroTurns before = heroTurns r.calls := by
  obtain ⟨r, extra1, extra2, hturn, hcalls, hst, hai, m1, m2, ht1, ht2, hp1, hp2⟩ :=
    turnAfterSort_trace c sorted r2
  obtain ⟨c1, ra1, rf1⟩ := move_calls_only extra1 m1
  obtain ⟨c2, ra2, rf2⟩ := move_calls_only extra2 m2
  have hT : ∀ (v : Nat) (l : List Call), heroTurns (Call.RedrawTurnProgress v :: l) = heroTurns l :=
    fun _ _ => rfl
  have happ : ∀ a b : List Call, heroTurns (a ++ b) = heroTurns a ++ heroTurns b := by
    intro a b; simp [heroTurns]
  have cT : ∀ (v : Nat) (l : List Call), castleTurns (Call.RedrawTurnProgress v :: l) = castleTurns l :=
    fun _ _ => rfl
  have capp : ∀ a b : List Call, castleTurns (a ++ b) = castleTurns a ++ castleTurns b := by
    intro a b; simp [castleTurns]
  have aT : ∀ (v : Nat) (l : List Call),
      recruitAttempts (Call.RedrawTurnProgress v :: l) = recruitAttempts l := fun _ _ => rfl
  have aapp : ∀ a b : List Call, recruitAttempts (a ++ b) = recruitAttempts a ++ recruitAttempts b := by
    intro a b; simp [recruitAttempts]
  have fT : ∀ (v : Nat) (l : List Call),
      reinforcements (Call.RedrawTurnProgress v :: l) = reinforcements l := fun _ _ => rfl
  have fapp : ∀ a b : List Call, reinforcements (a ++ b) = reinforcements a ++ reinforcements b := by
    intro a b; simp [reinforcements]
  have pT : ∀ (v : Nat) (l : List Call),
      progressValues (Call.RedrawTurnProgress v :: l) = v :: progressValues l := fun _ _ => rfl
  have papp : ∀ a b : List Call, progressValues (a ++ b) = progressValues a ++ progressValues b := by
    intro a b; simp [progressValues]
  have hheroes : heroTurns r.calls
      = heroTurns r2.calls
          ++ (sorted.filterMap id ++ retrySchedule c sorted (pass2StartOf c sorted r2.st)) := by
    rw [hcalls, happ, hT, happ, happ, hT, heroTurns_map_CastleTurn, ht1, ht2]
    simp
  refine ⟨r, hturn, hheroes, ?_, ?_, ?_, ?_, hst, hai, ?_⟩
  · rw [hcalls, capp, cT, capp, capp, cT, castleTurns_map_CastleTurn, c1, c2]
    simp
  · rw [hcalls, aapp, aT, aapp, aapp, aT, recruitAttempts_map_CastleTurn, ra1, ra2]
    simp
  · rw [hcalls, fapp, fT, fapp, fapp, fT, reinforcements_map_CastleTurn, rf1, rf2]
    simp
  · rw [hcalls, papp, pT, papp, papp, pT, progressValues_map_CastleTurn, hp1, hp2]
    have hr : ∀ a b : Nat, List.range' 1 (a + b) = List.range' 1 a ++ List.range' (a + 1) b := by
      intro a b
      have h := List.range'_append_1 1 a b
      rw [Nat.add_comm 1 a, Nat.add_comm b a] at h
      exact h.symm
    rw [hr, List.map_append]
    simp
  · refine ⟨r2.calls ++ Call.RedrawTurnProgress 2 ::
      (extra1 ++ (extra2 ++ [Call.RedrawTurnProgress 9])), ?_, ?_, ?_⟩
    · rw [hcalls]; simp
    · rw [capp, cT, capp, capp, c1, c2]
      simp [castleTurns]
    · rw [hheroes, happ, hT, happ, happ, ht1, ht2]
      simp [heroTurns]

/-- The sorted copy of the turn, when the hero list the recruitment step
leaves has at most 16 slots: it is built, and it is a permutation of that
list. -/
theorem snapshot_perm {σ : Type} (g : Game) (c : Collaborators σ) (ai : Normal) (s : σ)
    (hshort : (c.GetHeroes (recruitPhase g c ai s).st).length ≤ 16) :
    sortedHeroList c (recruitPhase g c ai s).st = some (snapshot g c ai s) ∧
      (snapshot g c ai s).Perm (c.GetHeroes (recruitPhase g c ai s).st) := by
  obtain ⟨sorted, hsorted, hperm, -⟩ := sortedHeroList_sorted c (recruitPhase g c ai s).st hshort
  have hsnap : snapshot g c ai s = sorted := by simp [snapshot, hsorted]
  rw [hsnap]
  exact ⟨hsorted, hperm⟩

/-- The hero turns, castle turns, recruitments, reinforcements and progress
values of the whole turn of a kingdom that has not lost, when the hero
list the recruitment step leaves has at most 16 slots. -/
theorem KingdomTurn_projections {σ : Type} (g : Game) (c : Collaborators σ) (ai : Normal) (s : σ)
    (hloss : c.isLoss s = false) (hcolor : c.GetColor s ≠ g.NONE)
    (hshort : (c.GetHeroes (recruitPhase g c ai s).st).length ≤ 16) :
    ∃ r, KingdomTurn g c ai s = some r ∧
      heroTurns r.calls
        = (snapshot g c ai s).filterMap id
            ++ retrySchedule c (snapshot g c ai s) (pass2Start g c ai s) ∧
      castleTurns r.calls = (c.GetCastles (castlesStart g c ai s)).filterMap id ∧
      recruitAttempts r.calls = recruitAttempts (recruitPhase g c ai s).calls ∧
      reinforcements r.calls = reinforcements (recruitPhase g c ai s).calls := by
  obtain ⟨hsorted, -⟩ := snapshot_perm g c ai s hshort
  obtain ⟨r, hturn, hh, hc, ha, hf, -⟩ :=
    turnAfterSort_projections c (snapshot g c ai s) (recruitPhase g c ai s)
  obtain ⟨rh, rc, -⟩ := recruitPhase_calls g c ai s
  refine ⟨r, ?_, ?_, ?_, ha, hf⟩
  · unfold KingdomTurn
    simp only [hloss, hcolor, decide_False, Bool.or_self, Bool.false_eq_true, if_false]
    rw [hsorted]
    exact hturn
  · rw [hh, rh]
    rfl
  · rw [hc, rc]
    rfl

/-! ## The two movement passes -/

theorem retrySchedule_sublist {σ : Type} (c : Collaborators σ) :
    ∀ (l : List (Option HeroId)) (s : σ), (retrySchedule c l s).Sublist (l.filterMap id) := by
  intro l
  induction l with
  | nil => intro s; simp [retrySchedule]
  | cons x rest ih =>
    intro s
    cases x with
    | none => simpa [retrySchedule] using ih s
    | some hero =>
      by_cases hm : c.Modes_HERO_MOVED s hero = true
      · simpa [retrySchedule, hm] using (ih s).cons hero
      · simpa [retrySchedule, hm] using (ih (c.HeroTurn hero s)).cons₂ hero

theorem afterHeroTurns_append {σ : Type} (c : Collaborators σ) (a b : List HeroId) (s : σ) :
    afterHeroTurns c (a ++ b) s = afterHeroTurns c b (afterHeroTurns c a s) := by
  simp [afterHeroTurns]

/-- The retry over a list in two parts: the second part is looked at in the
game the retries of the first part leave. -/
theorem retrySchedule_append {σ : Type} (c : Collaborators σ) :
    ∀ (l1 l2 : List (Option HeroId)) (s : σ),
      retrySchedule c (l1 ++ l2) s
        = retrySchedule c l1 s
            ++ retrySchedule c l2 (afterHeroTurns c (retrySchedule c l1 s) s) := by
  intro l1
  induction l1 with
  | nil => intro l2 s; simp [retrySchedule, afterHeroTurns]
  | cons x rest ih =>
    intro l2 s
    cases x with
    | none => simpa [retrySchedule] using ih l2 s
    | some hero =>
      by_cases hm : c.Modes_HERO_MOVED s hero = true
      · simpa [retrySchedule, hm] using ih l2 s
      · simpa [retrySchedule, hm, afterHeroTurns] using ih l2 (c.HeroTurn hero s)

/-- C11: for every sorted copy of distinct heroes handed to the movement
passes, both passes run to their end. Pass 1 runs the turn of every
present hero of the copy once, in the order of the copy, and leaves the
game those turns leave; pass 2 then runs, in the same order, one more
turn for exactly the present heroes that do not carry MOVED in the game
the pass has reached at their slot. No hero has more than two turns, only
the present heroes of the copy have any, and these are all the hero turns
the turn adds from the sorted copy on. -/
theorem movePasses_hero_turns {σ : Type} (c : Collaborators σ) (sorted : List (Option HeroId))
    (r2 : Run σ) (hdistinct : (sorted.filterMap id).Nodup) :
    ∃ r4 moved1 r5 moved2 extra1 extra2 r,
      movePass1 c sorted.length sorted (r2.log (Call.RedrawTurnProgress 2)) 0 = some (r4, moved1) ∧
      movePass2 c sorted.length sorted r4 moved1 = some (r5, moved2) ∧
      r4.calls = (r2.log (Call.RedrawTurnProgress 2)).calls ++ extra1 ∧
      r5.calls = r4.calls ++ extra2 ∧
      heroTurns extra1 = sorted.filterMap id ∧
      r4.st = afterHeroTurns c (sorted.filterMap id) r2.st ∧
      heroTurns extra2 = retrySchedule c sorted r4.st ∧
      r5.st = afterHeroTurns c (retrySchedule c sorted r4.st) r4.st ∧
      (retrySchedule c sorted r4.st).Sublist (sorted.filterMap id) ∧
      (∀ before hero after, sorted = before ++ some hero :: after →
        (hero ∈ retrySchedule c sorted r4.st ↔
          c.Modes_HERO_MOVED (afterHeroTurns c (retrySchedule c before r4.st) r4.st) hero
            = false)) ∧
      (∀ hero, (heroTurns (extra1 ++ extra2)).count hero ≤ 2) ∧
      (∀ hero, hero ∈ heroTurns (extra1 ++ extra2) ↔ some hero ∈ sorted) ∧
      turnAfterSort c sorted r2 = some r ∧
      heroTurns r.calls = heroTurns r2.calls ++ heroTurns (extra1 ++ extra2) := by
  obtain ⟨r4, moved1, r5, moved2, h1, h2, -, hturn⟩ := turnAfterSort_phases c sorted r2
  obtain ⟨extra1, a1, -, a3, -, -, a6⟩ := movePass1_trace c _ _ _ _ _ h1
  obtain ⟨extra2, b1, -, b3, -, -, b6⟩ := movePass2_trace c _ _ _ _ _ h2
  have hsub := retrySchedule_sublist c sorted r4.st
  have happ : ∀ a b : List Call, heroTurns (a ++ b) = heroTurns a ++ heroTurns b := by
    intro a b; simp [heroTurns]
  have hboth : heroTurns (extra1 ++ extra2)
      = sorted.filterMap id ++ retrySchedule c sorted r4.st := by
    rw [happ, a3, b3]
  refine ⟨r4, moved1, r5, moved2, extra1, extra2, _, h1, h2, a1, b1, a3, a6, b3, b6, hsub,
    ?_, ?_, ?_, hturn, ?_⟩
  · intro before hero after hsplit
    have hnd := hdistinct
    rw [hsplit] at hnd ⊢
    simp only [List.filterMap_append, List.filterMap_cons, id] at hnd
    rw [List.nodup_append] at hnd
    obtain ⟨-, hnd2, hdisj⟩ := hnd
    rw [List.nodup_cons] at hnd2
    have hnb : hero ∉ retrySchedule c before r4.st := fun hmem =>
      hdisj ((retrySchedule_sublist c before _).subset hmem) (List.mem_cons_self _ _)
    have hna : ∀ st, hero ∉ retrySchedule c after st := fun st hmem =>
      hnd2.1 ((retrySchedule_sublist c after st).subset hmem)
    rw [retrySchedule_append]
    cases hm : c.Modes_HERO_MOVED (afterHeroTurns c (retrySchedule c before r4.st) r4.st) hero
    · simp [retrySchedule, hm]
    · simp [retrySchedule, hm, hnb, hna]
  · intro hero
    rw [hboth, List.count_append]
    have hc1 := List.nodup_iff_count_le_one.mp hdistinct hero
    have hc2 := List.nodup_iff_count_le_one.mp (hdistinct.sublist hsub) hero
    omega
  · intro hero
    rw [hboth, List.mem_append]
    constructor
    · rintro (h | h)
      · simpa [List.mem_filterMap] using h
      · simpa [List.mem_filterMap] using hsub.subset h
    · intro h
      exact Or.inl (by simpa [List.mem_filterMap] using h)
  · rw [castlesPass_calls]
    simp only [Run.log]
    rw [b1, a1]
    simp only [Run.log, happ, List.append_assoc]
    rw [heroTurns_map_CastleTurn]
    simp [heroTurns]

/-- C11 on the sorted copy of the sample kingdom, the heroes 0, 2, 1 and an
absent slot (the copy the sort builds after the recruitment step), handed
to the passes after that step: hero 0 waits in pass 1 and is the only
hero retried. -/
theorem movePasses_hero_turns_witness :
    (sampleSorted.filterMap id).Nodup ∧
      sortedHeroList sampleCollaborators
          (recruitPhase sampleGame sampleCollaborators sampleAI sampleKingdom).st
        = some sampleSorted ∧
      (turnAfterSort sampleCollaborators sampleSorted
          (recruitPhase sampleGame sampleCollaborators sampleAI sampleKingdom)).map
        (fun r => heroTurns r.calls) = some [0, 2, 1, 0] ∧
      ∃ r4 moved1 r5 moved2 extra1 extra2 r,
        movePass1 sampleCollaborators sampleSorted.length sampleSorted
            ((recruitPhase sampleGame sampleCollaborators sampleAI sampleKingdom).log
              (Call.RedrawTurnProgress 2)) 0 = some (r4, moved1) ∧
        movePass2 sampleCollaborators sampleSorted.length sampleSorted r4 moved1
          = some (r5, moved2) ∧
        r4.calls
          = ((recruitPhase sampleGame sampleCollaborators sampleAI sampleKingdom).log
              (Call.RedrawTurnProgress 2)).calls ++ extra1 ∧
        r5.calls = r4.calls ++ extra2 ∧
        heroTurns extra1 = sampleSorted.filterMap id ∧
        r4.st = afterHeroTurns sampleCollaborators (sampleSorted.filterMap id)
            (recruitPhase sampleGame sampleCollaborators sampleAI sampleKingdom).st ∧
        heroTurns extra2 = retrySchedule sampleCollaborators sampleSorted r4.st ∧
        r5.st = afterHeroTurns sampleCollaborators
            (retrySchedule sampleCollaborators sampleSorted r4.st) r4.st ∧
        (retrySchedule sampleCollaborators sampleSorted r4.st).Sublist
          (sampleSorted.filterMap id) ∧
        (∀ before hero after, sampleSorted = before ++ some hero :: after →
          (hero ∈ retrySchedule sampleCollaborators sampleSorted r4.st ↔
            sampleCollaborators.Modes_HERO_MOVED
                (afterHeroTurns sampleCollaborators
                  (retrySchedule sampleCollaborators before r4.st) r4.st) hero
              = false)) ∧
        (∀ hero, (heroTurns (extra1 ++ extra2)).count hero ≤ 2) ∧
        (∀ hero, hero ∈ heroTurns (extra1 ++ extra2) ↔ some hero ∈ sampleSorted) ∧
        turnAfterSort sampleCollaborators sampleSorted
            (recruitPhase sampleGame sampleCollaborators sampleAI sampleKingdom) = some r ∧
        heroTurns r.calls
          = heroTurns (recruitPhase sampleGame sampleCollaborators sampleAI sampleKingdom).calls
              ++ heroTurns (extra1 ++ extra2) :=
  ⟨by decide, by decide, by decide,
    movePasses_hero_turns sampleCollaborators sampleSorted
      (recruitPhase sampleGame sampleCollaborators sampleAI sampleKingdom) (by decide)⟩

/-! ## Recruitment, reinforcement and castle turns in the whole turn -/

/-- The outcome of the recruitment step of the turn, read on the game at
the start of the turn. -/
theorem recruitPhase_outcome {σ : Type} (g : Game) (c : Collaborators σ) (ai : Normal) (s : σ) :
    ((c.GetFirstCastle s = none ∨
          ¬ (c.GetHeroes s).length
              < heroLimit g (c.w s) ai.personality
                  (slowEarlyGame (c.CountDay s) (c.GetCastles s).length) ∨
          ∃ castle guest, c.GetFirstCastle s = some castle ∧ c.Guest s castle = some guest) ∧
        recruitAttempts (recruitPhase g c ai s).calls = [] ∧
        reinforcements (recruitPhase g c ai s).calls = [] ∧
        (recruitPhase g c ai s).st = s ∧
        (recruitPhase g c ai s).calls = (scanPhase g c ai s).calls) ∨
      (∃ castle, c.GetFirstCastle s = some castle ∧
        (c.GetHeroes s).length
          < heroLimit g (c.w s) ai.personality
              (slowEarlyGame (c.CountDay s) (c.GetCastles s).length) ∧
        c.Guest s castle = none ∧
        ((c.RecruitHero castle (c.GetHero1 s) s).1 = none ∨
          slowEarlyGame (c.CountDay s) (c.GetCastles s).length = true) ∧
        recruitAttempts (recruitPhase g c ai s).calls = [castle] ∧
        reinforcements (recruitPhase g c ai s).calls = [] ∧
        (recruitPhase g c ai s).st = (c.RecruitHero castle (c.GetHero1 s) s).2 ∧
        (recruitPhase g c ai s).calls = (scanPhase g c ai s).calls ++ [Call.RecruitHero castle]) ∨
      (∃ castle hero, c.GetFirstCastle s = some castle ∧
        (c.GetHeroes s).length
          < heroLimit g (c.w s) ai.personality
              (slowEarlyGame (c.CountDay s) (c.GetCastles s).length) ∧
        c.Guest s castle = none ∧
        (c.RecruitHero castle (c.GetHero1 s) s).1 = some hero ∧
        slowEarlyGame (c.CountDay s) (c.GetCastles s).length = false ∧
        recruitAttempts (recruitPhase g c ai s).calls = [castle] ∧
        reinforcements (recruitPhase g c ai s).calls = [(hero, castle)] ∧
        (recruitPhase g c ai s).st
          = c.ReinforceHeroInCastle hero castle (c.RecruitHero castle (c.GetHero1 s) s).2 ∧
        (recruitPhase g c ai s).calls
          = (scanPhase g c ai s).calls
              ++ [Call.RecruitHero castle, Call.ReinforceHeroInCastle hero castle]) := by
  unfold recruitPhase
  rcases recruitStep_cases c (slowEarlyGame (c.CountDay s) (c.GetCastles s).length)
      (heroLimit g (c.w s) ai.personality (slowEarlyGame (c.CountDay s) (c.GetCastles s).length))
      (scanPhase g c ai s) with
    ⟨h, hc⟩ | ⟨castle, h1, h2, h3, h4, h⟩ | ⟨castle, hero, h1, h2, h3, h4, h5, h⟩
  · refine Or.inl ⟨hc, ?_, ?_, ?_, ?_⟩ <;> rw [h] <;>
      simp [scanPhase_calls, scanPhase_st, recruitAttempts, reinforcements]
  · refine Or.inr (Or.inl ⟨castle, h1, h2, h3, h4, ?_, ?_, ?_, ?_⟩) <;> rw [h] <;>
      simp [scanPhase_calls, scanPhase_st, recruitAttempts, reinforcements]
  · refine Or.inr (Or.inr ⟨castle, hero, h1, h2, h3, h4, h5, ?_, ?_, ?_, ?_⟩) <;> rw [h] <;>
      simp [scanPhase_calls, scanPhase_st, recruitAttempts, reinforcements]

/-- C12: the turn makes at most one recruitment attempt: the scan makes none,
the recruitment step makes at most one, and for every sorted copy the
rest of the turn adds none. The step makes its attempt, in the first
castle, exactly when a first castle exists, the hero list has fewer slots
than the hero limit and that castle has no guest hero; when the first
castle has a guest hero, nothing is recruited, no reinforcement is
requested and the step leaves the game and the calls as they were; after
an attempt that no reinforcement follows, the game is the one the
recruitment leaves. -/
theorem recruitPhase_recruitment {σ : Type} (g : Game) (c : Collaborators σ) (ai : Normal) (s : σ) :
    recruitAttempts (scanPhase g c ai s).calls = [] ∧
      (recruitAttempts (recruitPhase g c ai s).calls).length ≤ 1 ∧
      (recruitAttempts (recruitPhase g c ai s).calls ≠ [] ↔
        ∃ castle, c.GetFirstCastle s = some castle ∧
          (c.GetHeroes s).length
            < heroLimit g (c.w s) ai.personality
                (slowEarlyGame (c.CountDay s) (c.GetCastles s).length) ∧
          c.Guest s castle = none) ∧
      (∀ castle, castle ∈ recruitAttempts (recruitPhase g c ai s).calls →
        c.GetFirstCastle s = some castle) ∧
      (∀ castle guest, c.GetFirstCastle s = some castle → c.Guest s castle = some guest →
        recruitAttempts (recruitPhase g c ai s).calls = [] ∧
          reinforcements (recruitPhase g c ai s).calls = [] ∧
          (recruitPhase g c ai s).st = s ∧
          (recruitPhase g c ai s).calls = (scanPhase g c ai s).calls) ∧
      (∀ castle, castle ∈ recruitAttempts (recruitPhase g c ai s).calls →
        reinforcements (recruitPhase g c ai s).calls = [] →
        (recruitPhase g c ai s).st = (c.RecruitHero castle (c.GetHero1 s) s).2 ∧
          (recruitPhase g c ai s).calls
            = (scanPhase g c ai s).calls ++ [Call.RecruitHero castle]) ∧
      (∀ sorted : List (Option HeroId),
        ∃ r, turnAfterSort c sorted (recruitPhase g c ai s) = some r ∧
          recruitAttempts r.calls = recruitAttempts (recruitPhase g c ai s).calls ∧
          reinforcements r.calls = reinforcements (recruitPhase g c ai s).calls) := by
  have hrest : ∀ sorted : List (Option HeroId),
      ∃ r, turnAfterSort c sorted (recruitPhase g c ai s) = some r ∧
        recruitAttempts r.calls = recruitAttempts (recruitPhase g c ai s).calls ∧
        reinforcements r.calls = reinforcements (recruitPhase g c ai s).calls := by
    intro sorted
    obtain ⟨r, hturn, -, -, ha, hf, -⟩ :=
      turnAfterSort_projections c sorted (recruitPhase g c ai s)
    exact ⟨r, hturn, ha, hf⟩
  refine ⟨rfl, ?_, ?_, ?_, ?_, ?_, hrest⟩
  · rcases recruitPhase_outcome g c ai s with
      ⟨-, ha, -⟩ | ⟨castle, -, -, -, -, ha, -⟩ | ⟨castle, hero, -, -, -, -, -, ha, -⟩ <;>
      rw [ha] <;> simp
  · rcases recruitPhase_outcome g c ai s with
      ⟨hc, ha, -⟩ | ⟨castle, h1, h2, h3, -, ha, -⟩ | ⟨castle, hero, h1, h2, h3, -, -, ha, -⟩
    · rw [ha]
      constructor
      · intro h; exact absurd rfl h
      · rintro ⟨castle, h1, h2, h3⟩
        rcases hc with hc | hc | ⟨castle', guest, hc1, hc2⟩
        · rw [hc] at h1; cases h1
        · exact absurd h2 hc
        · rw [h1] at hc1
          cases hc1
          rw [h3] at hc2
          cases hc2
    · rw [ha]
      exact ⟨fun _ => ⟨castle, h1, h2, h3⟩, fun _ => by simp⟩
    · rw [ha]
      exact ⟨fun _ => ⟨castle, h1, h2, h3⟩, fun _ => by simp⟩
  · rcases recruitPhase_outcome g c ai s with
      ⟨-, ha, -⟩ | ⟨castle, h1, -, -, -, ha, -⟩ | ⟨castle, hero, h1, -, -, -, -, ha, -⟩
    · rw [ha]
      intro castle hmem
      cases hmem
    · rw [ha]
      intro castle' hmem
      rw [List.mem_singleton] at hmem
      rw [hmem]; exact h1
    · rw [ha]
      intro castle' hmem
      rw [List.mem_singleton] at hmem
      rw [hmem]; exact h1
  · rcases recruitPhase_outcome g c ai s with
      ⟨-, ha, hf, hst, hcalls⟩ | ⟨castle, h1, -, h3, -⟩ | ⟨castle, hero, h1, -, h3, -⟩
    · rw [ha, hf]
      exact fun _ _ _ _ => ⟨rfl, rfl, hst, hcalls⟩
    · intro castle' guest hc1 hc2
      rw [h1] at hc1
      cases hc1
      rw [h3] at hc2
      cases hc2
    · intro castle' guest hc1 hc2
      rw [h1] at hc1
      cases hc1
      rw [h3] at hc2
      cases hc2
  · rcases recruitPhase_outcome g c ai s with
      ⟨-, ha, -⟩ | ⟨castle, -, -, -, -, ha, -, hst, hcalls⟩ |
        ⟨castle, hero, -, -, -, -, -, -, hf, -⟩
    · rw [ha]
      intro castle hmem
      cases hmem
    · rw [ha]
      intro castle' hmem _
      rw [List.mem_singleton] at hmem
      rw [hmem]
      exact ⟨hst, hcalls⟩
    · rw [hf]
      intro castle' _ h
      cases h

/-- C12 on the early kingdom, where the one castle has no guest and the
empty hero list is below the limit 2: one attempt, in castle 0; and on
the sample kingdom, whose first castle has a guest: none. -/
theorem recruitPhase_recruitment_witness :
    recruitAttempts (recruitPhase sampleGame sampleCollaborators sampleAI earlyKingdom).calls = [0] ∧
      recruitAttempts (recruitPhase sampleGame sampleCollaborators sampleAI sampleKingdom).calls
        = [] ∧
      (recruitAttempts (scanPhase sampleGame sampleCollaborators sampleAI earlyKingdom).calls = [] ∧
        (recruitAttempts
            (recruitPhase sampleGame sampleCollaborators sampleAI earlyKingdom).calls).length ≤ 1 ∧
        (recruitAttempts (recruitPhase sampleGame sampleCollaborators sampleAI earlyKingdom).calls
            ≠ [] ↔
          ∃ castle, sampleCollaborators.GetFirstCastle earlyKingdom = some castle ∧
            (sampleCollaborators.GetHeroes earlyKingdom).length
              < heroLimit sampleGame (sampleCollaborators.w earlyKingdom) sampleAI.personality
                  (slowEarlyGame (sampleCollaborators.CountDay earlyKingdom)
                    (sampleCollaborators.GetCastles earlyKingdom).length) ∧
            sampleCollaborators.Guest earlyKingdom castle = none) ∧
        (∀ castle,
          castle ∈ recruitAttempts
              (recruitPhase sampleGame sampleCollaborators sampleAI earlyKingdom).calls →
          sampleCollaborators.GetFirstCastle earlyKingdom = some castle) ∧
        (∀ castle guest, sampleCollaborators.GetFirstCastle earlyKingdom = some castle →
          sampleCollaborators.Guest earlyKingdom castle = some guest →
          recruitAttempts (recruitPhase sampleGame sampleCollaborators sampleAI earlyKingdom).calls
              = [] ∧
            reinforcements (recruitPhase sampleGame sampleCollaborators sampleAI earlyKingdom).calls
              = [] ∧
            (recruitPhase sampleGame sampleCollaborators sampleAI earlyKingdom).st = earlyKingdom ∧
            (recruitPhase sampleGame sampleCollaborators sampleAI earlyKingdom).calls
              = (scanPhase sampleGame sampleCollaborators sampleAI earlyKingdom).calls) ∧
        (∀ castle,
          castle ∈ recruitAttempts
              (recruitPhase sampleGame sampleCollaborators sampleAI earlyKingdom).calls →
          reinforcements (recruitPhase sampleGame sampleCollaborators sampleAI earlyKingdom).calls
            = [] →
          (recruitPhase sampleGame sampleCollaborators sampleAI earlyKingdom).st
              = (sampleCollaborators.RecruitHero castle (sampleCollaborators.GetHero1 earlyKingdom)
                  earlyKingdom).2 ∧
            (recruitPhase sampleGame sampleCollaborators sampleAI earlyKingdom).calls
              = (scanPhase sampleGame sampleCollaborators sampleAI earlyKingdom).calls
                  ++ [Call.RecruitHero castle]) ∧
        (∀ sorted : List (Option HeroId),
          ∃ r, turnAfterSort sampleCollaborators sorted
                (recruitPhase sampleGame sampleCollaborators sampleAI earlyKingdom) = some r ∧
            recruitAttempts r.calls
              = recruitAttempts
                  (recruitPhase sampleGame sampleCollaborators sampleAI earlyKingdom).calls ∧
            reinforcements r.calls
              = reinforcements
                  (recruitPhase sampleGame sampleCollaborators sampleAI earlyKingdom).calls)) :=
  ⟨by decide, by decide,
    recruitPhase_recruitment sampleGame sampleCollaborators sampleAI earlyKingdom⟩

/-- C17: in the turn a reinforcement of hero `hero` in castle `castle` is
requested exactly when the recruitment step attempted a recruitment in
`castle`, it returned `hero`, and the kingdom is not in its slow early
days; at most one is requested, the scan requests none and for every
sorted copy the rest of the turn adds none. When the recruitment returns
no hero, no reinforcement follows and the step does nothing but the
attempt; a guest hero in the first castle is never reinforced; after a
reinforcement the game is the one the reinforcement leaves. -/
theorem recruitPhase_reinforcement {σ : Type} (g : Game) (c : Collaborators σ) (ai : Normal)
    (s : σ) :
    reinforcements (scanPhase g c ai s).calls = [] ∧
      (reinforcements (recruitPhase g c ai s).calls).length ≤ 1 ∧
      (∀ hero castle, (hero, castle) ∈ reinforcements (recruitPhase g c ai s).calls ↔
        (recruitAttempts (recruitPhase g c ai s).calls = [castle] ∧
          (c.RecruitHero castle (c.GetHero1 s) s).1 = some hero ∧
          slowEarlyGame (c.CountDay s) (c.GetCastles s).length = false)) ∧
      (∀ castle, recruitAttempts (recruitPhase g c ai s).calls = [castle] →
        (c.RecruitHero castle (c.GetHero1 s) s).1 = none →
        reinforcements (recruitPhase g c ai s).calls = [] ∧
          (recruitPhase g c ai s).calls = (scanPhase g c ai s).calls ++ [Call.RecruitHero castle] ∧
          (recruitPhase g c ai s).st = (c.RecruitHero castle (c.GetHero1 s) s).2) ∧
      (∀ castle guest, c.GetFirstCastle s = some castle → c.Guest s castle = some guest →
        reinforcements (recruitPhase g c ai s).calls = []) ∧
      (∀ hero castle, (hero, castle) ∈ reinforcements (recruitPhase g c ai s).calls →
        (recruitPhase g c ai s).st
            = c.ReinforceHeroInCastle hero castle (c.RecruitHero castle (c.GetHero1 s) s).2 ∧
          (recruitPhase g c ai s).calls
            = (scanPhase g c ai s).calls
                ++ [Call.RecruitHero castle, Call.ReinforceHeroInCastle hero castle]) ∧
      (∀ sorted : List (Option HeroId),
        ∃ r, turnAfterSort c sorted (recruitPhase g c ai s) = some r ∧
          reinforcements r.calls = reinforcements (recruitPhase g c ai s).calls ∧
          recruitAttempts r.calls = recruitAttempts (recruitPhase g c ai s).calls) := by
  have hrest : ∀ sorted : List (Option HeroId),
      ∃ r, turnAfterSort c sorted (recruitPhase g c ai s) = some r ∧
        reinforcements r.calls = reinforcements (recruitPhase g c ai s).calls ∧
        recruitAttempts r.calls = recruitAttempts (recruitPhase g c ai s).calls := by
    intro sorted
    obtain ⟨r, hturn, -, -, ha, hf, -⟩ :=
      turnAfterSort_projections c sorted (recruitPhase g c ai s)
    exact ⟨r, hturn, hf, ha⟩
  refine ⟨rfl, ?_, ?_, ?_, ?_, ?_, hrest⟩
  · rcases recruitPhase_outcome g c ai s with
      ⟨-, -, hf, -⟩ | ⟨castle, -, -, -, -, -, hf, -⟩ | ⟨castle, hero, -, -, -, -, -, -, hf, -⟩ <;>
      rw [hf] <;> simp
  · rcases recruitPhase_outcome g c ai s with
      ⟨-, ha, hf, -⟩ | ⟨castle, -, -, -, h4, ha, hf, -⟩ |
        ⟨castle, hero, -, -, -, h4, h5, ha, hf, -⟩
    · rw [ha, hf]
      intro hero castle
      simp
    · rw [ha, hf]
      intro hero castle'
      constructor
      · intro h; simp at h
      · rintro ⟨hc, hr, hs⟩
        have hcc : castle = castle' := by simpa using hc
        subst hcc
        rcases h4 with h4 | h4
        · rw [h4] at hr; cases hr
        · rw [h4] at hs; cases hs
    · rw [ha, hf]
      intro hero' castle'
      constructor
      · intro h
        have hpair : hero' = hero ∧ castle' = castle := by simpa using h
        obtain ⟨rfl, rfl⟩ := hpair
        exact ⟨rfl, h4, h5⟩
      · rintro ⟨hc, hr, -⟩
        have hcc : castle = castle' := by simpa using hc
        subst hcc
        rw [h4] at hr
        cases hr
        simp
  · rcases recruitPhase_outcome g c ai s with
      ⟨-, ha, -⟩ | ⟨castle, -, -, -, -, ha, hf, hst, hcalls⟩ |
        ⟨castle, hero, -, -, -, h4, -, ha, -⟩
    · rw [ha]
      intro castle h
      cases h
    · rw [ha, hf]
      intro castle' hc _
      have hcc : castle = castle' := by simpa using hc
      subst hcc
      exact ⟨rfl, hcalls, hst⟩
    · rw [ha]
      intro castle' hc hr
      have hcc : castle = castle' := by simpa using hc
      subst hcc
      rw [h4] at hr
      cases hr
  · rcases recruitPhase_outcome g c ai s with
      ⟨-, -, hf, -⟩ | ⟨castle, -, -, -, -, -, hf, -⟩ | ⟨castle, hero, h1, -, h3, -⟩
    · rw [hf]
      exact fun _ _ _ _ => rfl
    · rw [hf]
      exact fun _ _ _ _ => rfl
    · intro castle' guest hc1 hc2
      rw [h1] at hc1
      cases hc1
      rw [h3] at hc2
      cases hc2
  · rcases recruitPhase_outcome g c ai s with
      ⟨-, -, hf, -⟩ | ⟨castle, -, -, -, -, -, hf, -⟩ |
        ⟨castle, hero, -, -, -, -, -, -, hf, hst, hcalls⟩
    · rw [hf]
      intro hero castle h
      cases h
    · rw [hf]
      intro hero castle' h
      cases h
    · rw [hf]
      intro hero' castle' h
      have hpair : hero' = hero ∧ castle' = castle := by simpa using h
      obtain ⟨rfl, rfl⟩ := hpair
      exact ⟨hst, hcalls⟩

/-- C17 on the early kingdom on day 10: hero 7 is recruited in castle 0 and
reinforced there; on day 3 it is recruited and not reinforced. -/
theorem recruitPhase_reinforcement_witness :
    reinforcements
        (recruitPhase sampleGame sampleCollaborators sampleAI { earlyKingdom with day := 10 }).calls
      = [(7, 0)] ∧
      recruitAttempts (recruitPhase sampleGame sampleCollaborators sampleAI earlyKingdom).calls
        = [0] ∧
      reinforcements (recruitPhase sampleGame sampleCollaborators sampleAI earlyKingdom).calls
        = [] ∧
      (reinforcements
            (scanPhase sampleGame sampleCollaborators sampleAI { earlyKingdom with day := 10 }).calls
          = [] ∧
        (reinforcements
            (recruitPhase sampleGame sampleCollaborators sampleAI
              { earlyKingdom with day := 10 }).calls).length ≤ 1 ∧
        (∀ hero castle,
          (hero, castle) ∈ reinforcements
              (recruitPhase sampleGame sampleCollaborators sampleAI
                { earlyKingdom with day := 10 }).calls ↔
          (recruitAttempts
                (recruitPhase sampleGame sampleCollaborators sampleAI
                  { earlyKingdom with day := 10 }).calls = [castle] ∧
            (sampleCollaborators.RecruitHero castle
                (sampleCollaborators.GetHero1 { earlyKingdom with day := 10 })
                { earlyKingdom with day := 10 }).1 = some hero ∧
            slowEarlyGame (sampleCollaborators.CountDay { earlyKingdom with day := 10 })
              (sampleCollaborators.GetCastles { earlyKingdom with day := 10 }).length = false)) ∧
        (∀ castle,
          recruitAttempts
              (recruitPhase sampleGame sampleCollaborators sampleAI
                { earlyKingdom with day := 10 }).calls = [castle] →
          (sampleCollaborators.RecruitHero castle
              (sampleCollaborators.GetHero1 { earlyKingdom with day := 10 })
              { earlyKingdom with day := 10 }).1 = none →
          reinforcements
              (recruitPhase sampleGame sampleCollaborators sampleAI
                { earlyKingdom with day := 10 }).calls = [] ∧
            (recruitPhase sampleGame sampleCollaborators sampleAI { earlyKingdom with day := 10 }).calls
              = (scanPhase sampleGame sampleCollaborators sampleAI
                    { earlyKingdom with day := 10 }).calls ++ [Call.RecruitHero castle] ∧
            (recruitPhase sampleGame sampleCollaborators sampleAI { earlyKingdom with day := 10 }).st
              = (sampleCollaborators.RecruitHero castle
                  (sampleCollaborators.GetHero1 { earlyKingdom with day := 10 })
                  { earlyKingdom with day := 10 }).2) ∧
        (∀ castle guest,
          sampleCollaborators.GetFirstCastle { earlyKingdom with day := 10 } = some castle →
          sampleCollaborators.Guest { earlyKingdom with day := 10 } castle = some guest →
          reinforcements
              (recruitPhase sampleGame sampleCollaborators sampleAI
                { earlyKingdom with day := 10 }).calls = []) ∧
        (∀ hero castle,
          (hero, castle) ∈ reinforcements
              (recruitPhase sampleGame sampleCollaborators sampleAI
                { earlyKingdom with day := 10 }).calls →
          (recruitPhase sampleGame sampleCollaborators sampleAI { earlyKingdom with day := 10 }).st
              = sampleCollaborators.ReinforceHeroInCastle hero castle
                  (sampleCollaborators.RecruitHero castle
                    (sampleCollaborators.GetHero1 { earlyKingdom with day := 10 })
                    { earlyKingdom with day := 10 }).2 ∧
            (recruitPhase sampleGame sampleCollaborators sampleAI { earlyKingdom with day := 10 }).calls
              = (scanPhase sampleGame sampleCollaborators sampleAI
                    { earlyKingdom with day := 10 }).calls
                  ++ [Call.RecruitHero castle, Call.ReinforceHeroInCastle hero castle]) ∧
        (∀ sorted : List (Option HeroId),
          ∃ r, turnAfterSort sampleCollaborators sorted
                (recruitPhase sampleGame sampleCollaborators sampleAI
                  { earlyKingdom with day := 10 }) = some r ∧
            reinforcements r.calls
              = reinforcements
                  (recruitPhase sampleGame sampleCollaborators sampleAI
                    { earlyKingdom with day := 10 }).calls ∧
            recruitAttempts r.calls
              = recruitAttempts
                  (recruitPhase sampleGame sampleCollaborators sampleAI
                    { earlyKingdom with day := 10 }).calls)) :=
  ⟨by decide, by decide, by decide,
    recruitPhase_reinforcement sampleGame sampleCollaborators sampleAI
      { earlyKingdom with day := 10 }⟩

/-! ## The explorer bonus, the comparator and the guest hero -/

/-- C14: outside the early game with one castle, the hero limit of an
explorer kingdom is one more than the limit of a kingdom of any other
personality on a world of the same width; on a world of width 72 below
both map-size thresholds, an explorer with 3 castles gets 2 + 1 = 3. -/
theorem heroLimit_explorer (g : Game) (w : Nat) (personality : Personality)
    (countDay castlesSize : Nat)
    (hpersonality : personality ≠ Personality.EXPLORER)
    (hslow : ¬ (countDay < 5 ∧ castlesSize = 1)) :
    heroLimit g w Personality.EXPLORER (slowEarlyGame countDay castlesSize)
        = heroLimit g w personality (slowEarlyGame countDay castlesSize) + 1 ∧
      (72 < g.LARGE → 72 < g.XLARGE →
        heroLimit g 72 personality (slowEarlyGame countDay 3) = 2 ∧
          heroLimit g 72 Personality.EXPLORER (slowEarlyGame countDay 3) = 2 + 1) := by
  have hs : slowEarlyGame countDay castlesSize = false := by
    unfold slowEarlyGame
    by_cases hd : countDay < 5
    · by_cases hc : castlesSize = 1
      · exact absurd ⟨hd, hc⟩ hslow
      · simp [hc]
    · simp [hd]
  have hs3 : slowEarlyGame countDay 3 = false := by simp [slowEarlyGame]
  refine ⟨by simp [heroLimit, hs, hpersonality], ?_⟩
  intro h1 h2
  simp [heroLimit, hs3, hpersonality, h1, h2]

/-- C14 on the sample game, for a world of width 72 and a kingdom with 3
castles on day 10: limit 2 for a non-explorer, 3 for an explorer. -/
theorem heroLimit_explorer_witness :
    Personality.OTHER 0 ≠ Personality.EXPLORER ∧ ¬ (10 < 5 ∧ 3 = 1) ∧
      heroLimit sampleGame 72 Personality.EXPLORER (slowEarlyGame 10 3) = 3 ∧
      (heroLimit sampleGame 72 Personality.EXPLORER (slowEarlyGame 10 3)
          = heroLimit sampleGame 72 (Personality.OTHER 0) (slowEarlyGame 10 3) + 1 ∧
        (72 < sampleGame.LARGE → 72 < sampleGame.XLARGE →
          heroLimit sampleGame 72 (Personality.OTHER 0) (slowEarlyGame 10 3) = 2 ∧
            heroLimit sampleGame 72 Personality.EXPLORER (slowEarlyGame 10 3) = 2 + 1)) :=
  ⟨by decide, by decide, by decide,
    heroLimit_explorer sampleGame 72 (Personality.OTHER 0) 10 3 (by decide) (by decide)⟩

/-- C15 fails on the code at two absent slots: the comparator of lines
135-139 answers `right == NULL`, so an absent slot compares less than an
absent slot, itself included, and the comparator is neither irreflexive
nor asymmetric there. On present heroes it is irreflexive, it ranks an
absent slot after every present hero, and it is transitive on all slots. -/
theorem heroCompare_absent_absent (strength : HeroId → Nat) :
    heroCompare strength none none = true ∧
      (∀ a, heroCompare strength (some a) (some a) = false ∧
        heroCompare strength (some a) none = true ∧
        heroCompare strength none (some a) = false) ∧
      (∀ a b, (heroCompare strength (some a) (some b) && heroCompare strength (some b) (some a))
        = false) ∧
      (∀ x y z, (!(heroCompare strength x y && heroCompare strength y z)
        || heroCompare strength x z) = true) := by
  refine ⟨rfl, ?_, ?_, ?_⟩
  · intro a
    simp [heroCompare]
  · intro a b
    simp only [heroCompare, Bool.and_eq_false_imp, decide_eq_true_eq, decide_eq_false_iff_not]
    omega
  · intro x y z
    cases x <;> cases y <;> cases z <;> simp [heroCompare]
    omega

/-- C18: on a tile whose base object is a castle, when the hero object id and
the castle object id are ground objects alike, the classifier gives the
same answer for the hero object id as for the castle object id, whatever
hero stands on the tile and whatever its colour. -/
theorem IsValidKingdomObject_guest_ignored (g : Game) (tile : Tiles) (F : Int)
    (hcastle : tile.GetObjectFalse = g.OBJ_CASTLE)
    (hground : g.isGroundObject g.OBJ_HEROES = g.isGroundObject g.OBJ_CASTLE) :
    ∀ guest : Option Heroes,
      IsValidKingdomObject g { tile with GetHeroes := guest } g.OBJ_HEROES F
        = IsValidKingdomObject g tile g.OBJ_CASTLE F := by
  intro guest
  simp [IsValidKingdomObject, hcastle, hground]

/-- C18 on the castle of colour 2 with visiting switched off, seen by the
allied kingdom colour 1: rejected with the castle id, and rejected with
the hero id for a guest of the hostile colour 4 as well. -/
theorem IsValidKingdomObject_guest_ignored_witness :
    (castleTile 2).GetObjectFalse = strictGame.OBJ_CASTLE ∧
      strictGame.isGroundObject strictGame.OBJ_HEROES
        = strictGame.isGroundObject strictGame.OBJ_CASTLE ∧
      IsValidKingdomObject strictGame (castleTile 2) strictGame.OBJ_CASTLE 1 = false ∧
      IsValidKingdomObject strictGame { castleTile 2 with GetHeroes := some { GetColor := 4 } }
          strictGame.OBJ_HEROES 1 = false ∧
      ∀ guest : Option Heroes,
        IsValidKingdomObject strictGame { castleTile 2 with GetHeroes := guest }
            strictGame.OBJ_HEROES 1
          = IsValidKingdomObject strictGame (castleTile 2) strictGame.OBJ_CASTLE 1 :=
  ⟨rfl, by decide, by decide, by decide,
    IsValidKingdomObject_guest_ignored strictGame (castleTile 2) 1 rfl (by decide)⟩

/-! ## Ties in the sort -/

/-- A slot that compares less than another does not hold a hero of the same
strength as the other. -/
theorem hasStrength_of_heroCompare (strength : HeroId → Nat) (v : Nat) {x y : Option HeroId}
    (hc : heroCompare strength x y = true) (hx : hasStrength strength v x = true) :
    hasStrength strength v y = false := by
  cases x <;> cases y <;> simp_all [heroCompare, hasStrength]
  omega

/-- The inner loop never moves a hero past a hero of the same strength. -/
theorem unguardedLinearInsert_ties (strength : HeroId → Nat) (v : Nat) (val : Option HeroId) :
    ∀ (l l' : List (Option HeroId)),
      unguardedLinearInsert (heroCompare strength) val l = some l' →
      l'.filter (hasStrength strength v) = (val :: l).filter (hasStrength strength v) := by
  intro l
  induction l with
  | nil => intro l' h; simp [unguardedLinearInsert] at h
  | cons next before ih =>
    intro l' h
    by_cases hc : heroCompare strength val next = true
    · simp only [unguardedLinearInsert, hc, if_true, Option.map_eq_some'] at h
      obtain ⟨moved, hmoved, rfl⟩ := h
      have hm := ih moved hmoved
      cases hv : hasStrength strength v val
      · simp only [List.filter_cons, hv, Bool.false_eq_true, if_false] at hm ⊢
        rw [hm]
      · have hn := hasStrength_of_heroCompare strength v hc hv
        simp only [List.filter_cons, hv, hn, Bool.false_eq_true, if_false, if_true] at hm ⊢
        exact hm
    · simp only [unguardedLinearInsert, hc, Bool.false_eq_true, if_false, Option.some.injEq] at h
      rw [← h]

/-- One round of the insertion sort never moves a hero past a hero of the
same strength. -/
theorem insertionStep_ties (strength : HeroId → Nat) (v : Nat) (val : Option HeroId)
    (acc acc' : List (Option HeroId)) (hsorted : acc.Pairwise (fun a b => slotLE strength b a))
    (h : insertionStep (heroCompare strength) acc val = some acc') :
    acc'.filter (hasStrength strength v) = (val :: acc).filter (hasStrength strength v) := by
  unfold insertionStep at h
  cases hlast : acc.getLast? with
  | none =>
    have hnil : acc = [] := by simpa using hlast
    subst hnil
    simp only [List.getLast?_nil, Option.some.injEq] at h
    rw [← h]
  | some first =>
    rw [hlast] at h
    obtain ⟨front, hfront⟩ := List.getLast?_eq_some_iff.mp hlast
    by_cases hc : heroCompare strength val first = true
    · simp only [hc, if_true, Option.some.injEq] at h
      subst h
      cases hv : hasStrength strength v val
      · simp [List.filter_cons, hv]
      · have hfirst := hasStrength_of_heroCompare strength v hc hv
        have hnone : ∀ x ∈ acc, hasStrength strength v x = false := by
          intro x hx
          have hle : slotLE strength first x := by
            rw [hfront, List.pairwise_append] at hsorted
            rw [hfront, List.mem_append] at hx
            rcases hx with hx | hx
            · exact hsorted.2.2 x hx first (List.mem_singleton.mpr rfl)
            · rw [List.mem_singleton] at hx
              rw [hx]
              exact slotLE_refl strength first
          cases hvx : hasStrength strength v x
          · rfl
          · cases hval : val <;> cases hf : first <;> cases hxx : x <;>
              simp_all [heroCompare, hasStrength, slotLE]
            omega
        have hempty : acc.filter (hasStrength strength v) = [] := by
          rw [List.filter_eq_nil_iff]
          intro x hx
          simp [hnone x hx]
        simp [List.filter_cons, hv, hempty]
    · simp only [hc, Bool.false_eq_true, if_false] at h
      exact unguardedLinearInsert_ties strength v val acc acc' h

/-- The rounds of the insertion sort keep heroes of the same strength in
the order in which they are met. -/
theorem foldlM_insertionStep_ties (strength : HeroId → Nat) (v : Nat) :
    ∀ (rest acc acc' : List (Option HeroId)), acc.Pairwise (fun a b => slotLE strength b a) →
      rest.foldlM (insertionStep (heroCompare strength)) acc = some acc' →
      acc'.filter (hasStrength strength v)
        = (rest.reverse ++ acc).filter (hasStrength strength v) := by
  intro rest
  induction rest with
  | nil =>
    intro acc acc' _ h
    simp only [List.foldlM_nil, pure, Option.some.injEq] at h
    simp [h]
  | cons val rest ih =>
    intro acc acc' hacc h
    obtain ⟨acc1, h1, -, hsorted1⟩ := insertionStep_sorted strength val acc hacc
    rw [List.foldlM_cons, h1] at h
    have h2 := ih acc1 acc' hsorted1 h
    have h3 := insertionStep_ties strength v val acc acc1 hacc h1
    rw [h2, List.filter_append, h3]
    simp [List.filter_append]

/-- The insertion sort keeps heroes of the same strength in the order they
have in the list. -/
theorem insertionSort_ties (strength : HeroId → Nat) (v : Nat) (l sorted : List (Option HeroId))
    (h : insertionSort (heroCompare strength) l = some sorted) :
    sorted.filter (hasStrength strength v) = l.filter (hasStrength strength v) := by
  cases l with
  | nil =>
    simp only [insertionSort, Option.some.injEq] at h
    rw [← h]
  | cons first rest =>
    obtain ⟨acc, hacc, -, -⟩ :=
      foldlM_insertionStep_sorted strength rest [first] (List.pairwise_singleton _ _)
    have hties := foldlM_insertionStep_ties strength v rest [first] acc
      (List.pairwise_singleton _ _) hacc
    simp only [insertionSort, hacc, Option.map_some', Option.some.injEq] at h
    rw [← h, List.filter_reverse, hties, ← List.filter_reverse]
    simp

/-- C16, as the spec states it, fails: on the 20 heroes 0 to 19 in this
order, hero `i` of strength `10 + i % 3`, `std::sort` partitions the range
before its insertion sort, and the heroes of strength 10, which stand in
the hero list as 0, 3, 6, 9, 12, 15, 18, stand in the sorted copy as 18,
3, 15, 6, 12, 9, 0. -/
theorem sortedHeroList_ties_reordered :
    (sampleCollaborators.GetHeroes twentyHeroes).filter
        (hasStrength (sampleCollaborators.GetStrength twentyHeroes) 10)
      = [some 0, some 3, some 6, some 9, some 12, some 15, some 18] ∧
      sortedHeroList sampleCollaborators twentyHeroes
        = some [some 18, some 3, some 15, some 6, some 12, some 9, some 0, some 10, some 19,
            some 16, some 13, some 7, some 4, some 1, some 11, some 8, some 14, some 5, some 17,
            some 2] ∧
      (sortedHeroList sampleCollaborators twentyHeroes).map
          (List.filter (hasStrength (sampleCollaborators.GetStrength twentyHeroes) 10))
        = some [some 18, some 3, some 15, some 6, some 12, some 9, some 0] := by
  decide

/-- C16, amended: for a hero list of at most 16 slots, which `std::sort`
sorts by insertion alone, the sorted copy is built and the heroes of any
one army strength stand in it in the order they have in the hero list. -/
theorem sortedHeroList_short_ties {σ : Type} (c : Collaborators σ) (s : σ) (v : Nat)
    (hshort : (c.GetHeroes s).length ≤ 16) :
    ∃ sorted, sortedHeroList c s = some sorted ∧
      sorted.filter (hasStrength (c.GetStrength s) v)
        = (c.GetHeroes s).filter (hasStrength (c.GetStrength s) v) := by
  obtain ⟨sorted, hsorted, -, -⟩ := sortedHeroList_sorted c s hshort
  refine ⟨sorted, hsorted, ?_⟩
  unfold sortedHeroList at hsorted
  rw [stdSort_short _ _ hshort] at hsorted
  exact insertionSort_ties (c.GetStrength s) v _ sorted hsorted

/-- The amended C16 on the four heroes 0 to 3 of strengths 30, 5, 30, 5: the
sorted copy is 1, 3, 0, 2, and the heroes of strength 30 stand in it as
0, 2. -/
theorem sortedHeroList_short_ties_witness :
    (sampleCollaborators.GetHeroes fourHeroes).length ≤ 16 ∧
      sortedHeroList sampleCollaborators fourHeroes = some [some 1, some 3, some 0, some 2] ∧
      ∃ sorted, sortedHeroList sampleCollaborators fourHeroes = some sorted ∧
        sorted.filter (hasStrength (sampleCollaborators.GetStrength fourHeroes) 30)
          = (sampleCollaborators.GetHeroes fourHeroes).filter
              (hasStrength (sampleCollaborators.GetStrength fourHeroes) 30) :=
  ⟨by decide, by decide, sortedHeroList_short_ties sampleCollaborators fourHeroes 30 (by decide)⟩

/-! ## The first end-to-end scenario -/

/-- C19, as the spec states it, fails: on the early kingdom (20 by 20 world,
day 3, one castle without a guest, no hero, not an explorer, not lost) the
recruitment succeeds, the hero list is copied after it, and the recruited
hero 7 has a turn in pass 1 and, as it has not moved, again in pass 2. -/
theorem KingdomTurn_early_scenario_runs_hero_turns :
    sampleCollaborators.isLoss earlyKingdom = false ∧
      sampleCollaborators.GetColor earlyKingdom ≠ sampleGame.NONE ∧
      sampleAI.personality ≠ Personality.EXPLORER ∧
      sampleCollaborators.w earlyKingdom = 20 ∧ sampleCollaborators.h earlyKingdom = 20 ∧
      sampleCollaborators.CountDay earlyKingdom = 3 ∧
      sampleCollaborators.GetCastles earlyKingdom = [some 0] ∧
      sampleCollaborators.GetFirstCastle earlyKingdom = some 0 ∧
      sampleCollaborators.Guest earlyKingdom 0 = none ∧
      sampleCollaborators.GetHeroes earlyKingdom = [] ∧
      (KingdomTurn sampleGame sampleCollaborators sampleAI earlyKingdom).map
          (fun r => heroTurns r.calls) = some [7, 7] ∧
      (KingdomTurn sampleGame sampleCollaborators sampleAI earlyKingdom).map
          (fun r => heroTurns r.calls) ≠ some [] := by
  decide

/-- C19, amended: in the turn of a kingdom that has not lost, before day 5,
that starts with exactly one castle, without a guest hero, and an empty
hero list, the hero limit is 2 (whatever the world size and the
personality), recruitment is attempted exactly once and no reinforcement
is requested; the hero turns are those of the two passes over the hero
list the recruitment leaves (a list of at most 16 slots, which
`std::sort` sorts by insertion), none when it leaves the list empty; and
the castle turn runs exactly once when the castle collection still holds
that one castle at the castle pass. -/
theorem KingdomTurn_early_scenario {σ : Type} (g : Game) (c : Collaborators σ) (ai : Normal) (s : σ)
    (castle : CastleId)
    (hloss : c.isLoss s = false) (hcolor : c.GetColor s ≠ g.NONE)
    (hday : c.CountDay s < 5) (hcastles : c.GetCastles s = [some castle])
    (hfirst : c.GetFirstCastle s = some castle) (hguest : c.Guest s castle = none)
    (hheroes : c.GetHeroes s = [])
    (hshort : (c.GetHeroes (c.RecruitHero castle (c.GetHero1 s) s).2).length ≤ 16)
    (hkeep : c.GetCastles (castlesStart g c ai s) = [some castle]) :
    heroLimit g (c.w s) ai.personality (slowEarlyGame (c.CountDay s) (c.GetCastles s).length) = 2 ∧
      ∃ r, KingdomTurn g c ai s = some r ∧
        recruitAttempts r.calls = [castle] ∧
        reinforcements r.calls = [] ∧
        heroTurns r.calls
          = (snapshot g c ai s).filterMap id
              ++ retrySchedule c (snapshot g c ai s) (pass2Start g c ai s) ∧
        (snapshot g c ai s).Perm (c.GetHeroes (c.RecruitHero castle (c.GetHero1 s) s).2) ∧
        (c.GetHeroes (c.RecruitHero castle (c.GetHero1 s) s).2 = [] → heroTurns r.calls = []) ∧
        castleTurns r.calls = [castle] := by
  have hslow : slowEarlyGame (c.CountDay s) (c.GetCastles s).length = true := by
    simp [slowEarlyGame, hday, hcastles]
  have hlimit : heroLimit g (c.w s) ai.personality
      (slowEarlyGame (c.CountDay s) (c.GetCastles s).length) = 2 := by
    simp [heroLimit, hslow]
  refine ⟨hlimit, ?_⟩
  rcases recruitPhase_outcome g c ai s with
    ⟨hc, -⟩ | ⟨castle', h1, -, -, -, ha, hf, hst, -⟩ | ⟨castle', hero, -, -, -, -, h5, -⟩
  · rcases hc with hc | hc | ⟨castle', guest, hc1, hc2⟩
    · rw [hfirst] at hc; cases hc
    · rw [hlimit, hheroes] at hc
      exact absurd (by decide) hc
    · rw [hfirst] at hc1
      cases hc1
      rw [hguest] at hc2
      cases hc2
  · rw [hfirst] at h1
    cases h1
    have hshort' : (c.GetHeroes (recruitPhase g c ai s).st).length ≤ 16 := by
      rw [hst]; exact hshort
    obtain ⟨r, hturn, hht, hct, hatt, hrei⟩ :=
      KingdomTurn_projections g c ai s hloss hcolor hshort'
    obtain ⟨-, hperm⟩ := snapshot_perm g c ai s hshort'
    rw [hst] at hperm
    refine ⟨r, hturn, ?_, ?_, hht, hperm, ?_, ?_⟩
    · rw [hatt, ha]
    · rw [hrei, hf]
    · intro hempty
      rw [hempty] at hperm
      have hnil : snapshot g c ai s = [] := hperm.eq_nil
      rw [hht, hnil]
      rfl
    · rw [hct, hkeep]
      rfl
  · rw [hslow] at h5
    cases h5

/-- The amended C19 on the early kingdom of the spec's scenario. -/
theorem KingdomTurn_early_scenario_witness :
    sampleCollaborators.isLoss earlyKingdom = false ∧
      sampleCollaborators.GetColor earlyKingdom ≠ sampleGame.NONE ∧
      sampleCollaborators.CountDay earlyKingdom < 5 ∧
      sampleCollaborators.GetCastles earlyKingdom = [some 0] ∧
      sampleCollaborators.GetFirstCastle earlyKingdom = some 0 ∧
      sampleCollaborators.Guest earlyKingdom 0 = none ∧
      sampleCollaborators.GetHeroes earlyKingdom = [] ∧
      (sampleCollaborators.GetHeroes
          (sampleCollaborators.RecruitHero 0 (sampleCollaborators.GetHero1 earlyKingdom)
            earlyKingdom).2).length ≤ 16 ∧
      sampleCollaborators.GetCastles
          (castlesStart sampleGame sampleCollaborators sampleAI earlyKingdom) = [some 0] ∧
      (heroLimit sampleGame (sampleCollaborators.w earlyKingdom) sampleAI.personality
            (slowEarlyGame (sampleCollaborators.CountDay earlyKingdom)
              (sampleCollaborators.GetCastles earlyKingdom).length) = 2 ∧
        ∃ r, KingdomTurn sampleGame sampleCollaborators sampleAI earlyKingdom = some r ∧
          recruitAttempts r.calls = [0] ∧
          reinforcements r.calls = [] ∧
          heroTurns r.calls
            = (snapshot sampleGame sampleCollaborators sampleAI earlyKingdom).filterMap id
                ++ retrySchedule sampleCollaborators
                    (snapshot sampleGame sampleCollaborators sampleAI earlyKingdom)
                    (pass2Start sampleGame sampleCollaborators sampleAI earlyKingdom) ∧
          (snapshot sampleGame sampleCollaborators sampleAI earlyKingdom).Perm
            (sampleCollaborators.GetHeroes
              (sampleCollaborators.RecruitHero 0 (sampleCollaborators.GetHero1 earlyKingdom)
                earlyKingdom).2) ∧
          (sampleCollaborators.GetHeroes
              (sampleCollaborators.RecruitHero 0 (sampleCollaborators.GetHero1 earlyKingdom)
                earlyKingdom).2 = [] → heroTurns r.calls = []) ∧
          castleTurns r.calls = [0]) :=
  ⟨rfl, by decide, by decide, rfl, rfl, rfl, rfl, by decide, by decide,
    KingdomTurn_early_scenario sampleGame sampleCollaborators sampleAI earlyKingdom 0 rfl
      (by decide) (by decide) rfl rfl rfl rfl (by decide) (by decide)⟩

/-! ## The progress indicator -/

end AI
